import Mathlib

/-!
Verification development for `icoro.py`, a cooperative task scheduler with
interceptable system calls.  The file shallowly embeds the two engines of the
source (`IStack`, a trampoline runner, and `IRotator`, a multi-task rotator)
together with the shared action-table validation (`IBase._check_actions`), and
proves the specification claims about them.

Modelling conventions:
* A Python coroutine is modelled as a resumable state machine (`Task`): each
  resumption receives either a value (`.ok`, Python `send`) or a failure
  (`.error`, Python `throw`) and produces an `Outcome`: a yielded request
  (`(name, args, kwargs)` in the source; the single coroutine-valued argument
  of `stack_add`/`new_coro` is carried in a dedicated `Option Task` slot, the
  remaining positional arguments in `List Value`), normal completion
  (`StopIteration` with a value), or an escaping exception.
* Python exceptions are split into ordinary ones (`Exception` subclasses,
  `Exc.err` with the class name and message) and fatal ones (`BaseException`
  outside `Exception`, `Exc.fatal`), matching the source's
  `isinstance(e, Exception)` checks.  `StopIteration` (normal completion) is
  represented by `Outcome.done`, exactly as the engines special-case it.
* Loops of the source become fuel-indexed step functions; `Option.none` as a
  run result means fuel exhaustion, never a behaviour of the code.
* Record dictionaries of the rotator are kept in a store indexed by the id the
  source's `_new_coro_adder` assigns (0, 1, 2, ...); Python references to a
  record become the id.  `coro_info` (the registry) is the `live` id list, in
  insertion order.  A ghost `trace` field logs sweep starts, record visits,
  resumptions and dispatched action names; it affects nothing.
-/

namespace Icoro

/-- Python values that flow through the engines in the verified scenarios:
`None`, non-negative integers, references to rotator records, and the
registry view returned by `all_info`. -/
inductive Value where
  | none : Value
  | nat (n : Nat) : Value
  | ref (i : Nat) : Value
  | ids (l : List Nat) : Value
  deriving DecidableEq

/-- Python exceptions without the normal-completion signal: `err tag msg`
models an ordinary `Exception` of class `tag`; `fatal tag` models a
`BaseException` that is not an `Exception` (e.g. `KeyboardInterrupt`). -/
inductive Exc where
  | err (tag : String) (msg : String) : Exc
  | fatal (tag : String) : Exc
  deriving DecidableEq

/-- `isinstance(e, Exception)` of the source. -/
def Exc.isOrdinary : Exc → Bool
  | .err _ _ => true
  | .fatal _ => false

mutual
/-- A suspendable computation: resuming it with a value (`send`) or a failure
(`throw`) produces an `Outcome`. -/
inductive Task where
  | mk : (Except Exc Value → Outcome) → Task

/-- Result of resuming a `Task` once: a yielded action request together with
the continuation, normal completion (`StopIteration` carrying the return
value), or an escaping exception. -/
inductive Outcome where
  | pending (name : String) (targ : Option Task) (args : List Value) (k : Task) : Outcome
  | done (v : Value) : Outcome
  | failed (e : Exc) : Outcome
end

/-- Resume a task: `send v` is `resume (.ok v)`, `throw e` is
`resume (.error e)`. -/
def Task.resume : Task → Except Exc Value → Outcome
  | .mk f, i => f i

/-! ## The Stack engine (`IStack.run`)

State of the `while True` loop of `IStack.run`: the frame list (`stack` in the
source, top of the Python list = head here) and the pending value/failure
(`val`/`exc`; the source resumes with `throw(exc)` when `exc` is truthy, else
`send(val)`, which is exactly an `Except Exc Value`). -/
structure StSt where
  stack : List Task
  pend : Except Exc Value

/-- One loop iteration either keeps running or finishes `run`. -/
inductive StRes where
  | running (s : StSt) : StRes
  | finished (r : Except Exc Value) : StRes

/-- One iteration of the `while True` loop of `IStack.run`:
resume the top frame with the pending value/failure; a yielded request is
dispatched (`stack_add` pushes the given coroutine; an unknown name makes
`actions[name]` raise `KeyError`, caught by the `except Exception` and stored
as the pending failure of the same frame); termination of the top frame pops
it and passes the value/failure to the caller frame, or ends `run` when the
frame list has a single element. -/
def step (s : StSt) : StRes :=
  match s.stack with
  | [] => .finished (.error (.err "IndexError" "empty stack"))
  | t :: rest =>
    match t.resume s.pend with
    | .pending name targ _ k =>
      if name = "stack_add" then
        match targ with
        | some c => .running { stack := c :: k :: rest, pend := .ok .none }
        | Option.none =>
            .running { stack := k :: rest,
                       pend := .error (.err "TypeError" "stack_add missing argument") }
      else .running { stack := k :: rest, pend := .error (.err "KeyError" name) }
    | .done v =>
      match rest with
      | [] => .finished (.ok v)
      | _ :: _ => .running { stack := rest, pend := .ok v }
    | .failed e =>
      match rest with
      | [] => .finished (.error e)
      | _ :: _ => .running { stack := rest, pend := .error e }

/-- Step once more unless already finished. -/
def stepF : StRes → StRes
  | .running s => step s
  | .finished r => .finished r

/-- Iterate the loop `k` times (finished states are absorbing). -/
def stepN : Nat → StRes → StRes
  | 0, r => r
  | k + 1, r => stepN k (stepF r)

/-- `IStack.run` after `_check_actions` succeeded: iterate the loop; `none`
means the fuel ran out before the root frame terminated. -/
def runStack (fuel : Nat) (s : StSt) : Option (Except Exc Value) :=
  match stepN fuel (.running s) with
  | .finished r => some r
  | .running _ => Option.none

/-- Frame-list length of an intermediate loop state. -/
def lenOf : StRes → Nat
  | .running s => s.stack.length
  | .finished _ => 0

theorem stepN_add (a b : Nat) (r : StRes) :
    stepN (a + b) r = stepN b (stepN a r) := by
  induction a generalizing r with
  | zero => simp [stepN]
  | succ a ih =>
    have : a + 1 + b = (a + b) + 1 := by omega
    rw [this]
    show stepN (a + b) (stepF r) = stepN b (stepN a (stepF r))
    exact ih (stepF r)

theorem stepN_finished (k : Nat) (r : Except Exc Value) :
    stepN k (.finished r) = .finished r := by
  induction k with
  | zero => rfl
  | succ k ih => simpa [stepN, stepF] using ih

/-! ## Stack-engine scenarios -/

/-- The continuation of `await cls._icall("stack_add", coro)`: the awaited
request resumes with the sub-task's result, which the caller returns, or with
a thrown failure, which propagates uncaught. -/
def awaitK : Task :=
  .mk fun r =>
    match r with
    | .ok v => .done v
    | .error e => .failed e

/-- The failure of the C2 scenario. -/
def excF : Exc := .err "ValueError" "boom"

/-- A sub-task that immediately raises `excF`. -/
def childFail : Task := .mk fun _ => .failed excF

/-- A parent that `stack_add`s `childFail` and does not catch the failure. -/
def parentNoCatch : Task :=
  .mk fun _ => .pending "stack_add" (some childFail) [] awaitK

/-- `async def f(n): return 5 if n == 0 else await IStack.stack_add(f(n-1))`:
the recursive delegation chain of the trampoline-depth scenario. -/
def nestTask : Nat → Task
  | 0 => .mk fun _ => .done (.nat 5)
  | n + 1 => .mk fun _ => .pending "stack_add" (some (nestTask n)) [] awaitK

/-- Running `nestTask n` on top of a non-root stack takes `2*n+1` loop
iterations to hand `ok 5` to the frame below, and never grows the frame list
beyond `n + 1` frames above `rest`. -/
theorem nest_chain (n : Nat) : ∀ rest v, rest ≠ [] →
    stepN (2 * n + 1) (.running { stack := nestTask n :: rest, pend := .ok v }) =
      .running { stack := rest, pend := .ok (.nat 5) }
    ∧ ∀ k, k ≤ 2 * n + 1 →
      lenOf (stepN k (.running { stack := nestTask n :: rest, pend := .ok v })) ≤
        n + 1 + rest.length := by
  induction n with
  | zero =>
    intro rest v hrest
    match rest, hrest with
    | r0 :: rs, _ =>
      constructor
      · rfl
      · intro k hk
        interval_cases k
        · simp [stepN, lenOf]; omega
        · simp [stepN, stepF, step, nestTask, Task.resume, lenOf]
  | succ n ih =>
    intro rest v hrest
    have hstep1 :
        stepN 1 (.running { stack := nestTask (n + 1) :: rest, pend := .ok v }) =
          .running { stack := nestTask n :: awaitK :: rest, pend := .ok .none } := by
      rfl
    have hmid := ih (awaitK :: rest) .none (by simp)
    have hfin :
        stepN (2 * (n + 1) + 1)
            (.running { stack := nestTask (n + 1) :: rest, pend := .ok v }) =
          .running { stack := rest, pend := .ok (.nat 5) } := by
      have h1 : 2 * (n + 1) + 1 = 1 + (2 * n + 1) + 1 := by omega
      rw [h1, stepN_add, stepN_add, hstep1, hmid.1]
      match rest, hrest with
      | r0 :: rs, _ => rfl
    refine ⟨hfin, ?_⟩
    intro k hk
    match k with
    | 0 => simp [stepN, lenOf]; omega
    | j + 1 =>
      have hj : stepN (j + 1) (.running { stack := nestTask (n + 1) :: rest, pend := .ok v }) =
          stepN j (.running { stack := nestTask n :: awaitK :: rest, pend := .ok .none }) := by
        have hja : (j + 1) = 1 + j := by omega
        rw [hja, stepN_add, hstep1]
      rw [hj]
      by_cases hj2 : j ≤ 2 * n + 1
      · have := hmid.2 j hj2
        simp only [List.length_cons] at this
        omega
      · have hj3 : j = 2 * n + 1 + 1 := by omega
        rw [hj3, stepN_add, hmid.1]
        match rest, hrest with
        | r0 :: rs, _ =>
          simp [stepN, stepF, step, awaitK, Task.resume, lenOf]

/-- Claim C2: in the Stack engine, a nested sub-task that raises failure `F`
makes the engine pop its frame and resume the parent frame (the new top) by
throwing a failure equal to `F` into it: any failure raised while resuming a
non-root frame is that frame's termination-with-failure; and when the root
frame does not catch it, `run` re-raises `F` to the embedder (shown on the
concrete scenario `parentNoCatch`/`childFail`). -/
theorem C2_stack_failure_propagation :
    (∀ (t : Task) (rest : List Task) (p : Except Exc Value) (e : Exc), rest ≠ [] →
        t.resume p = .failed e →
        step { stack := t :: rest, pend := p } = .running { stack := rest, pend := .error e })
    ∧ stepN 2 (.running { stack := [parentNoCatch], pend := .ok .none }) =
        .running { stack := [awaitK], pend := .error excF }
    ∧ runStack 3 { stack := [parentNoCatch], pend := .ok .none } = some (.error excF) := by
  refine ⟨?_, rfl, rfl⟩
  intro t rest p e h1 h2
  cases rest with
  | nil => exact absurd rfl h1
  | cons a as => simp [step, h2]

/-- Witness for C2: the pop-and-propagate rule applied at the concrete frames
of the scenario. -/
theorem C2_stack_failure_propagation_witness :
    ([awaitK] : List Task) ≠ [] ∧ childFail.resume (.ok .none) = .failed excF ∧
    step { stack := childFail :: [awaitK], pend := .ok .none } =
      .running { stack := [awaitK], pend := .error excF } :=
  ⟨by simp, rfl,
    C2_stack_failure_propagation.1 childFail [awaitK] (.ok .none) excF (by simp) rfl⟩

/-- Claim C3: for every `N` up to at least 10000, a task that recursively
`stack_add`s `N` nested sub-tasks, the innermost immediately returning the
constant 5, completes under `IStack.run` and returns that constant, in
`2*N+1` loop iterations; and the recursion depth is bounded by the explicit
frame list, which never exceeds `N + 1` frames at any step (the embedding's
loop is a first-order step function over that list, so no host call stack is
consumed by the nesting). -/
theorem C3_trampoline_depth (n : Nat) (h : n ≤ 10000) :
    runStack (2 * n + 1) { stack := [nestTask n], pend := .ok .none } =
      some (.ok (.nat 5))
    ∧ ∀ k, lenOf (stepN k (.running { stack := [nestTask n], pend := .ok .none })) ≤
        n + 1 := by
  match n with
  | 0 =>
    refine ⟨rfl, ?_⟩
    intro k
    match k with
    | 0 => simp [stepN, lenOf]
    | j + 1 =>
      have hja : (j + 1) = 1 + j := by omega
      rw [hja, stepN_add]
      have h1 : stepN 1 (.running { stack := [nestTask 0], pend := .ok .none }) =
          .finished (.ok (.nat 5)) := rfl
      rw [h1, stepN_finished]
      simp [lenOf]
  | m + 1 =>
    have hstep1 : stepN 1 (.running { stack := [nestTask (m + 1)], pend := .ok .none }) =
        .running { stack := nestTask m :: [awaitK], pend := .ok .none } := rfl
    have hmid := nest_chain m [awaitK] .none (by simp)
    have hrun : stepN (2 * (m + 1) + 1)
        (.running { stack := [nestTask (m + 1)], pend := .ok .none }) =
          .finished (.ok (.nat 5)) := by
      have h1 : 2 * (m + 1) + 1 = 1 + (2 * m + 1) + 1 := by omega
      rw [h1, stepN_add, stepN_add, hstep1, hmid.1]
      rfl
    constructor
    · unfold runStack
      rw [hrun]
    · intro k
      match k with
      | 0 => simp [stepN, lenOf]
      | j + 1 =>
        have hja : (j + 1) = 1 + j := by omega
        rw [hja, stepN_add, hstep1]
        by_cases hj2 : j ≤ 2 * m + 1
        · have := hmid.2 j hj2
          simp only [List.length_cons, List.length_nil] at this
          omega
        · obtain ⟨t, ht⟩ : ∃ t, j = (2 * m + 1 + 1) + t :=
            ⟨j - (2 * m + 2), by omega⟩
          rw [ht, stepN_add, stepN_add, hmid.1]
          have h2 : stepN 1 (.running { stack := [awaitK], pend := .ok (.nat 5) }) =
              .finished (.ok (.nat 5)) := rfl
          rw [h2, stepN_finished]
          simp [lenOf]

/-- Witness for C3: the theorem instantiated at `N = 10000`. -/
theorem C3_trampoline_depth_witness :
    10000 ≤ 10000 ∧
    (runStack (2 * 10000 + 1) { stack := [nestTask 10000], pend := .ok .none } =
        some (.ok (.nat 5))
      ∧ ∀ k, lenOf (stepN k (.running { stack := [nestTask 10000], pend := .ok .none })) ≤
          10000 + 1) :=
  ⟨by omega, C3_trampoline_depth 10000 (by omega)⟩

/-! ## The Rotator engine (`IRotator.run`)

A task record is the per-coroutine dict created by `_new_coro_adder`; the
`waiting_coros` list of record references becomes a list of record ids. -/
structure Record where
  val : Value
  exc : Option Exc
  coro : Task
  active : Bool
  terminated : Bool
  waiting : List Nat

/-- Ghost trace events: sweep starts, record visits of the `for` loop, single
resumptions (`send`/`throw`) and dispatched action names. -/
inductive TEv where
  | sweep : TEv
  | visit (cid : Nat) : TEv
  | resume (cid : Nat) : TEv
  | act (cid : Nat) (name : String) : TEv
  deriving DecidableEq

/-- Rotator engine state: the record store indexed by spawn id, the registry
`coro_info` as the list of live ids in insertion order, and the ghost trace. -/
structure RSt where
  store : List Record
  live : List Nat
  trace : List TEv

/-- The dict literal of `_new_coro_adder`:
`val=None, exc=None, active=True, terminated=False, waiting_coros=[]`. -/
def newRecord (t : Task) : Record :=
  { val := .none, exc := Option.none, coro := t,
    active := true, terminated := false, waiting := [] }

def pushEv (s : RSt) (e : TEv) : RSt := { s with trace := s.trace ++ [e] }

def setRec (s : RSt) (i : Nat) (r : Record) : RSt :=
  { s with store := s.store.set i r }

def modifyRec (s : RSt) (i : Nat) (f : Record → Record) : RSt :=
  match s.store[i]? with
  | Option.none => s
  | some r => setRec s i (f r)

/-- The `terminated` field of record `i` (`false` for an absent id; ids are
never absent in reachable states). -/
def terminatedAt (s : RSt) (i : Nat) : Bool :=
  match s.store[i]? with
  | some r => r.terminated
  | Option.none => false

/-- The `active` field of record `i`. -/
def activeAt (s : RSt) (i : Nat) : Bool :=
  match s.store[i]? with
  | some r => r.active
  | Option.none => false

/-- Waking one waiter at termination:
`if not info["terminated"]: info["active"] = True; info["val"] = None;
info["exc"] = None`. -/
def wake (s : RSt) (w : Nat) : RSt :=
  match s.store[w]? with
  | Option.none => s
  | some r =>
    if r.terminated then s
    else setRec s w { r with active := true, val := .none, exc := Option.none }

/-- The field updates of the `except BaseException` handler: deactivate,
mark terminated, and store the outcome (`e.value` for `StopIteration`, the
exception itself otherwise). -/
def setTerm (out : Except Exc Value) (r : Record) : Record :=
  { r with
    active := false
    terminated := true
    val := (match out with | .ok v => v | .error _ => .none)
    exc := (match out with | .ok _ => Option.none | .error e => some e) }

/-- The whole `except BaseException` handler for record `cid`: update the
record, wake every waiter in order, then `del coro_info[cid]`. -/
def terminateRec (cid : Nat) (out : Except Exc Value) (s : RSt) : RSt :=
  match s.store[cid]? with
  | Option.none => s
  | some r =>
    { r.waiting.foldl wake (setRec s cid (setTerm out r)) with
      live := (r.waiting.foldl wake (setRec s cid (setTerm out r))).live.erase cid }

/-- The body of the `wait_coro` action for target record `i`, called by the
visited record `cid`: when the target is not yet terminated, append the
caller's record to the target's `waiting_coros` and run `_suspend()`
(`cinfo["active"] = False`); when already terminated, return immediately
without touching any record. -/
def waitCoroAct (cid i : Nat) (aL : Bool) (s : RSt) : RSt × Bool × Except Exc Value :=
  match s.store[i]? with
  | some r =>
    if r.terminated then (s, aL, .ok .none)
    else
      let s1 := setRec s i { r with waiting := r.waiting ++ [cid] }
      let s2 := modifyRec s1 cid fun c => { c with active := false }
      (s2, aL, .ok .none)
  | Option.none => (s, aL, .error (.err "KeyError" "coro info"))

/-- The state after inserting a fresh record for `t` under the next id. -/
def spawnSt (s : RSt) (t : Task) : RSt :=
  { s with store := s.store ++ [newRecord t], live := s.live ++ [s.store.length] }

/-- The body of the `new_coro` action: `coro_adder.send(coro)` inserts a fresh
record under the next id and returns it. -/
def newCoroAct (t : Task) (aL : Bool) (s : RSt) : RSt × Bool × Except Exc Value :=
  (spawnSt s t, aL, .ok (.ref s.store.length))

/-- Dispatch of one `(name, args, kwargs)` request from record `cid` through
the reserved actions of `IRotator.run` (the actions close over `cid`/`cinfo`,
the currently visited record).  Returns the new state, the loop-local
`active` variable (only `schedule`'s `_pull_active` clears it) and the action
result (`.error` for an exception the surrounding `except Exception` catches,
e.g. the `KeyError` of an unknown name). -/
def dispatchR (cid : Nat) (name : String) (targ : Option Task) (args : List Value)
    (aL : Bool) (s0 : RSt) : RSt × Bool × Except Exc Value :=
  let s := pushEv s0 (.act cid name)
  if name = "new_coro" then
    match targ with
    | some t => newCoroAct t aL s
    | Option.none => (s, aL, .error (.err "TypeError" "new_coro missing argument"))
  else if name = "wait_coro" then
    match args with
    | [.ref i] => waitCoroAct cid i aL s
    | _ => (s, aL, .error (.err "TypeError" "wait_coro argument"))
  else if name = "this_id" then (s, aL, .ok (.nat cid))
  else if name = "this_info" then (s, aL, .ok (.ref cid))
  else if name = "all_info" then (s, aL, .ok (.ids s.live))
  else if name = "schedule" then (s, false, .ok .none)
  else (s, aL, .error (.err "KeyError" name))

/-- The `while active and cinfo["active"]` loop for the visited record `cid`
(`aL` is the loop-local `active` variable).  Each iteration resumes the
record's coroutine with its pending `val`/`exc` and dispatches the yielded
request; completion or an escaping exception runs the termination handler,
re-raising (`some e` in the result) when the exception is not an ordinary
`Exception`.  `_check_info` always passes for records built by
`_new_coro_adder` and is a no-op here.  Returns remaining fuel, the state and
the exception to re-raise, or `Option.none` on fuel exhaustion. -/
def visitRec : Nat → Nat → Bool → RSt → Option (Nat × RSt × Option Exc)
  | 0, _, _, _ => Option.none
  | fuel + 1, cid, aL, s =>
    match s.store[cid]? with
    | Option.none => some (fuel, s, Option.none)
    | some r =>
      if aL && r.active then
        match (match r.exc with
               | some e => r.coro.resume (.error e)
               | Option.none => r.coro.resume (.ok r.val)) with
        | .pending name targ args k =>
          match dispatchR cid name targ args aL
              (setRec (pushEv s (.resume cid)) cid { r with coro := k }) with
          | (sc, aL2, .ok v) =>
            visitRec fuel cid aL2
              (modifyRec sc cid fun c => { c with val := v, exc := Option.none })
          | (sc, aL2, .error e) =>
            if e.isOrdinary then
              visitRec fuel cid aL2
                (modifyRec sc cid fun c => { c with val := .none, exc := some e })
            else some (fuel, terminateRec cid (.error e) sc, some e)
        | .done v => some (fuel, terminateRec cid (.ok v) (pushEv s (.resume cid)), Option.none)
        | .failed e =>
          some (fuel, terminateRec cid (.error e) (pushEv s (.resume cid)),
            if e.isOrdinary then Option.none else some e)
      else some (fuel, s, Option.none)

/-- The `for cid, cinfo in list(reversed(coro_info.items()))` body over a
snapshot of ids: visit each record, aborting the sweep when a visit asks to
re-raise a fatal exception. -/
def sweepGo : Nat → List Nat → RSt → Option (Nat × RSt × Option Exc)
  | fuel, [], s => some (fuel, s, Option.none)
  | fuel, cid :: rest, s =>
    let s1 := pushEv s (.visit cid)
    match s1.store[cid]? with
    | Option.none => sweepGo fuel rest s1
    | some r =>
      match visitRec fuel cid r.active s1 with
      | Option.none => Option.none
      | some (f2, s2, some e) => some (f2, s2, some e)
      | some (f2, s2, Option.none) => sweepGo f2 rest s2

/-- One sweep: the snapshot is the registry content, newest first, taken when
the `for` loop starts. -/
def sweepOnce (fuel : Nat) (s : RSt) : Option (Nat × RSt × Option Exc) :=
  sweepGo fuel s.live.reverse (pushEv s .sweep)

/-- `get_result`: return `info["val"]` unless `info["exc"]` is truthy (all
modelled exceptions are truthy objects), in which case raise it. -/
def getResult (r : Record) : Except Exc Value :=
  match r.exc with
  | some e => .error e
  | Option.none => .ok r.val

/-- The `while not main_info["terminated"]` loop of `IRotator.run`; the main
record is id 0.  When the root has terminated, `run` returns
`get_result(main_info)`.  A fatal exception re-raised by a visit propagates
out of `run`.  Returns the run result and the final state. -/
def rotLoop : Nat → RSt → Option (Except Exc Value × RSt)
  | 0, _ => Option.none
  | fuel + 1, s =>
    match s.store[0]? with
    | Option.none => Option.none
    | some main =>
      if main.terminated then some (getResult main, s)
      else
        match sweepOnce fuel s with
        | Option.none => Option.none
        | some (_, s2, some e) => some (.error e, s2)
        | some (_, s2, Option.none) => rotLoop fuel s2

/-- Initial state: `coro_adder.send(coro)` gives the root task id 0. -/
def initSt (coro : Task) : RSt :=
  { store := [newRecord coro], live := [0], trace := [] }

/-- `IRotator.run` after `_check_actions` succeeded. -/
def runRot (fuel : Nat) (coro : Task) : Option (Except Exc Value × RSt) :=
  rotLoop fuel (initSt coro)

/-! ## Rotator scenarios -/

/-- Task B of the spawn/wait scenario: returns 42 immediately. -/
def taskB : Task := .mk fun _ => .done (.nat 42)

/-- Task A: spawn B with `new_coro`, `wait_coro` on B's record, return 7. -/
def taskA : Task :=
  .mk fun _ => .pending "new_coro" (some taskB) []
    (.mk fun r =>
      match r with
      | .ok bref => .pending "wait_coro" Option.none [bref] (.mk fun _ => .done (.nat 7))
      | .error e => .failed e)

/-- A child that immediately returns its spawn id. -/
def childId (n : Nat) : Task := .mk fun _ => .done (.nat n)

/-- Root of the reverse-order scenario: spawn children (ids 1, 2, 3), then
wait on the first. -/
def rootSpawn3 : Task :=
  .mk fun _ => .pending "new_coro" (some (childId 1)) []
    (.mk fun ra =>
      match ra with
      | .ok aref => .pending "new_coro" (some (childId 2)) []
        (.mk fun _ => .pending "new_coro" (some (childId 3)) []
          (.mk fun _ => .pending "wait_coro" Option.none [aref] (.mk fun _ => .done .none)))
      | .error e => .failed e)

/-- Root of the late-spawn scenario: spawn a child mid-sweep, `schedule`,
then return 3. -/
def rootC7 : Task :=
  .mk fun _ => .pending "new_coro" (some (childId 5)) []
    (.mk fun _ => .pending "schedule" Option.none [] (.mk fun _ => .done (.nat 3)))

/-- Root of the `schedule` scenario: `schedule()` once, then return 7. -/
def rootC8 : Task :=
  .mk fun _ => .pending "schedule" Option.none [] (.mk fun _ => .done (.nat 7))

/-- A child that `schedule`s once before returning 9. -/
def childSched : Task :=
  .mk fun _ => .pending "schedule" Option.none [] (.mk fun _ => .done (.nat 9))

/-- Root that spawns `childSched` and waits on it. -/
def rootC6x : Task :=
  .mk fun _ => .pending "new_coro" (some childSched) []
    (.mk fun ra =>
      match ra with
      | .ok aref => .pending "wait_coro" Option.none [aref] (.mk fun _ => .done .none)
      | .error e => .failed e)

/-- The state after the first sweep of the `rootC8` run. -/
def c8mid : RSt :=
  ((sweepOnce 5 (initSt rootC8)).map fun x => x.2.1).getD (initSt rootC8)

/-- The state after the first sweep of the `rootC6x` run. -/
def c6step1 : RSt :=
  ((sweepOnce 20 (initSt rootC6x)).map fun x => x.2.1).getD (initSt rootC6x)

/-- The state after the second sweep of the `rootC6x` run. -/
def c6step2 : RSt :=
  ((sweepOnce 20 c6step1).map fun x => x.2.1).getD c6step1

/-- Full ghost trace of the `rootC7` run. -/
def c7trace : List TEv :=
  [.sweep, .visit 0, .resume 0, .act 0 "new_coro", .resume 0, .act 0 "schedule",
   .sweep, .visit 1, .resume 1, .visit 0, .resume 0]

/-- Full ghost trace of the `rootSpawn3` run. -/
def spawn3trace : List TEv :=
  [.sweep, .visit 0, .resume 0, .act 0 "new_coro", .resume 0, .act 0 "new_coro",
   .resume 0, .act 0 "new_coro", .resume 0, .act 0 "wait_coro",
   .sweep, .visit 3, .resume 3, .visit 2, .resume 2, .visit 1, .resume 1,
   .visit 0, .resume 0]

/-- Claim C1: task A spawns B via `new_coro` and `wait_coro`s on B's record.
The record `new_coro` creates starts with `terminated = false` (and
`active = true`); the run completes with A's return value 7, so `wait_coro`
returned after A was woken; the trace shows A suspending in sweep 1 and being
resumed in sweep 2, the next sweep, right after B completed there; B's final
record is terminated with A's record among its waiters; and `get_result`
applied to B's record yields B's return value 42 (`get_result` returns the
record's `val` when `exc` is absent/falsy, else raises `exc`). -/
theorem C1_spawn_wait :
    (∀ t : Task, (newRecord t).terminated = false ∧ (newRecord t).active = true)
    ∧ (runRot 10 taskA).map Prod.fst = some (.ok (.nat 7))
    ∧ ((runRot 10 taskA).bind fun p => (p.2.store[1]?).map getResult) =
        some (.ok (.nat 42))
    ∧ ((runRot 10 taskA).bind fun p => (p.2.store[1]?).map Record.terminated) =
        some true
    ∧ ((runRot 10 taskA).bind fun p => (p.2.store[1]?).map Record.waiting) =
        some [0]
    ∧ (runRot 10 taskA).map (fun p => p.2.trace) =
        some [.sweep, .visit 0, .resume 0, .act 0 "new_coro", .resume 0,
              .act 0 "wait_coro", .sweep, .visit 1, .resume 1, .visit 0, .resume 0]
    ∧ (∀ r : Record, r.exc = Option.none → getResult r = .ok r.val)
    ∧ (∀ r : Record, ∀ e, r.exc = some e → getResult r = .error e) := by
  refine ⟨fun t => ⟨rfl, rfl⟩, rfl, rfl, rfl, rfl, rfl, ?_, ?_⟩
  · intro r h; simp [getResult, h]
  · intro r e h; simp [getResult, h]

/-- B's record at the end of the C1 run. -/
def recB42 : Record :=
  { val := .nat 42
    exc := Option.none
    coro := taskB
    active := false
    terminated := true
    waiting := [0] }

/-- A record terminated with the failure `excF`. -/
def recFailed : Record :=
  { val := .none
    exc := some excF
    coro := taskB
    active := false
    terminated := true
    waiting := [] }

/-- Witness for C1: the `get_result` clauses applied to B's terminated record
and to a failed record. -/
theorem C1_spawn_wait_witness :
    recB42.exc = Option.none ∧ getResult recB42 = .ok (.nat 42)
    ∧ recFailed.exc = some excF ∧ getResult recFailed = .error excF :=
  ⟨rfl, C1_spawn_wait.2.2.2.2.2.2.1 recB42 rfl, rfl,
    C1_spawn_wait.2.2.2.2.2.2.2 recFailed excF rfl⟩

/-- Counterexample for claim C7: in the `rootC7` run the child is spawned by
`new_coro` during the first sweep (the `act 0 "new_coro"` event lies in the
first sweep's segment, positions 0-5 of the trace), yet the child (id 1) is
neither visited nor resumed anywhere in that segment: a child spawned during
a sweep runs zero steps within the sweep that spawned it, because the sweep
iterates `list(reversed(coro_info.items()))`, a snapshot taken when the sweep
began. -/
theorem C7_same_sweep_cx :
    (runRot 10 rootC7).map (fun p => p.2.trace) = some c7trace
    ∧ c7trace.take 6 =
        [.sweep, .visit 0, .resume 0, .act 0 "new_coro", .resume 0, .act 0 "schedule"]
    ∧ c7trace.get? 6 = some .sweep
    ∧ TEv.resume 1 ∉ c7trace.take 6
    ∧ TEv.visit 1 ∉ c7trace.take 6 := by
  refine ⟨rfl, rfl, rfl, by decide, by decide⟩

/-- Claim C7 as amended: a child spawned via `new_coro` during a sweep does
not run within that sweep — the sweep's `for` loop iterates a snapshot of the
registry taken when the sweep started — and instead joins the next sweep's
snapshot, where the reverse-order rule runs it before its spawner: in the
`rootC7` run the child's first visit and resumption open sweep 2 and precede
the spawner's. -/
theorem C7_next_sweep_amended :
    (∀ fuel s, sweepOnce fuel s = sweepGo fuel s.live.reverse (pushEv s .sweep))
    ∧ (runRot 10 rootC7).map Prod.fst = some (.ok (.nat 3))
    ∧ (runRot 10 rootC7).map (fun p => p.2.trace) = some c7trace
    ∧ c7trace.drop 6 = [.sweep, .visit 1, .resume 1, .visit 0, .resume 0] := by
  refine ⟨fun fuel s => rfl, rfl, rfl, rfl⟩

/-- Counterexample for claim C8: in the `rootC8` run, after the first sweep
(during which the root's `schedule()` request was dispatched and completed,
as the `act 0 "schedule"` trace event records) the root record's `active`
field is still `true` and the record is not terminated: `schedule` does not
mark the record's `active` field false — its `_pull_active` clears the
loop-local `active` variable of `IRotator.run` instead. -/
theorem C8_schedule_cx :
    c8mid.trace = [.sweep, .visit 0, .resume 0, .act 0 "schedule"]
    ∧ ((c8mid.store[0]?).map Record.active) = some true
    ∧ ((c8mid.store[0]?).map Record.terminated) = some false := by
  refine ⟨rfl, rfl, rfl⟩

/-- Claim C8 as amended: `schedule()`, invoked by the currently active task,
unconditionally clears the sweep-local `active` variable — ending that
record's resume loop for the current sweep — while leaving the record itself
(in particular its `active` field) unchanged; the task is therefore resumed
again on the very next sweep, a cooperative yield with no other wake
condition: the `rootC8` run resumes the root in sweep 2 and returns 7. -/
theorem C8_schedule_amended :
    (∀ cid aL s, dispatchR cid "schedule" Option.none [] aL s =
        (pushEv s (.act cid "schedule"), false, .ok .none))
    ∧ (runRot 10 rootC8).map Prod.fst = some (.ok (.nat 7))
    ∧ (runRot 10 rootC8).map (fun p => p.2.trace) =
        some [.sweep, .visit 0, .resume 0, .act 0 "schedule",
              .sweep, .visit 0, .resume 0] := by
  refine ⟨fun cid aL s => rfl, rfl, rfl⟩

/-! ## General lemmas about the rotator's state operations -/

theorem setRec_trace (s : RSt) (i : Nat) (r : Record) :
    (setRec s i r).trace = s.trace := rfl

theorem setRec_live (s : RSt) (i : Nat) (r : Record) :
    (setRec s i r).live = s.live := rfl

theorem setRec_len (s : RSt) (i : Nat) (r : Record) :
    (setRec s i r).store.length = s.store.length := by
  simp [setRec]

theorem setRec_store_ne (s : RSt) (i : Nat) (r : Record) (j : Nat) (h : i ≠ j) :
    (setRec s i r).store[j]? = s.store[j]? :=
  List.getElem?_set_ne h

theorem setRec_store_self (s : RSt) (i : Nat) (r : Record) (h : i < s.store.length) :
    (setRec s i r).store[i]? = some r :=
  List.getElem?_set_self h

theorem lt_len_of_get_some (s : RSt) (i : Nat) (r : Record)
    (h : s.store[i]? = some r) : i < s.store.length := by
  by_contra hc
  rw [List.getElem?_eq_none (by omega)] at h
  exact Option.noConfusion h

theorem modifyRec_trace (s : RSt) (i : Nat) (f : Record → Record) :
    (modifyRec s i f).trace = s.trace := by
  unfold modifyRec; split <;> rfl

theorem modifyRec_live (s : RSt) (i : Nat) (f : Record → Record) :
    (modifyRec s i f).live = s.live := by
  unfold modifyRec; split <;> rfl

theorem modifyRec_len (s : RSt) (i : Nat) (f : Record → Record) :
    (modifyRec s i f).store.length = s.store.length := by
  unfold modifyRec; split
  · rfl
  · exact setRec_len ..

theorem terminatedAt_setRec_keep (s : RSt) (i : Nat) (r r2 : Record)
    (h : s.store[i]? = some r) (hr : r2.terminated = r.terminated) (j : Nat) :
    terminatedAt (setRec s i r2) j = terminatedAt s j := by
  rcases eq_or_ne i j with rfl | hj
  · unfold terminatedAt
    rw [setRec_store_self _ _ _ (lt_len_of_get_some _ _ _ h), h]
    simpa using hr
  · unfold terminatedAt
    rw [setRec_store_ne _ _ _ _ hj]

theorem terminatedAt_modifyRec (s : RSt) (i : Nat) (f : Record → Record)
    (hf : ∀ c, (f c).terminated = c.terminated) (j : Nat) :
    terminatedAt (modifyRec s i f) j = terminatedAt s j := by
  unfold modifyRec
  cases h : s.store[i]? with
  | none => rfl
  | some c => exact terminatedAt_setRec_keep s i c (f c) h (hf c) j

theorem terminatedAt_pushEv (s : RSt) (e : TEv) (j : Nat) :
    terminatedAt (pushEv s e) j = terminatedAt s j := rfl

theorem activeAt_pushEv (s : RSt) (e : TEv) (j : Nat) :
    activeAt (pushEv s e) j = activeAt s j := rfl

theorem wake_trace (s : RSt) (w : Nat) : (wake s w).trace = s.trace := by
  unfold wake; split
  · rfl
  · split <;> rfl

theorem wake_live (s : RSt) (w : Nat) : (wake s w).live = s.live := by
  unfold wake; split
  · rfl
  · split <;> rfl

theorem wake_len (s : RSt) (w : Nat) : (wake s w).store.length = s.store.length := by
  unfold wake; split
  · rfl
  · split
    · rfl
    · exact setRec_len ..

theorem wake_term_eq (s : RSt) (w : Nat) (j : Nat) :
    terminatedAt (wake s w) j = terminatedAt s j := by
  unfold wake
  split
  · rfl
  · rename_i r h
    split
    · rfl
    · exact terminatedAt_setRec_keep s w r
        { r with active := true, val := .none, exc := Option.none } h rfl j

theorem wake_frozen (s : RSt) (w : Nat) (j : Nat) (hj : terminatedAt s j = true) :
    (wake s w).store[j]? = s.store[j]? := by
  unfold wake
  cases h : s.store[w]? with
  | none => rfl
  | some r =>
    by_cases ht : r.terminated
    · simp [ht]
    · have hwj : w ≠ j := by
        intro he; subst he
        unfold terminatedAt at hj
        rw [h] at hj
        simp only at hj
        rw [hj] at ht; exact ht rfl
      simp only [ht, Bool.false_eq_true, if_neg, not_false_eq_true]
      exact setRec_store_ne _ _ _ _ hwj

theorem foldWake_trace (l : List Nat) (s : RSt) :
    (l.foldl wake s).trace = s.trace := by
  induction l generalizing s with
  | nil => rfl
  | cons a l ih => rw [List.foldl_cons, ih, wake_trace]

theorem foldWake_live (l : List Nat) (s : RSt) :
    (l.foldl wake s).live = s.live := by
  induction l generalizing s with
  | nil => rfl
  | cons a l ih => rw [List.foldl_cons, ih, wake_live]

theorem foldWake_len (l : List Nat) (s : RSt) :
    (l.foldl wake s).store.length = s.store.length := by
  induction l generalizing s with
  | nil => rfl
  | cons a l ih => rw [List.foldl_cons, ih, wake_len]

theorem foldWake_term_eq (l : List Nat) (s : RSt) (j : Nat) :
    terminatedAt (l.foldl wake s) j = terminatedAt s j := by
  induction l generalizing s with
  | nil => rfl
  | cons a l ih => rw [List.foldl_cons, ih, wake_term_eq]

theorem foldWake_frozen (l : List Nat) (s : RSt) (j : Nat)
    (hj : terminatedAt s j = true) :
    (l.foldl wake s).store[j]? = s.store[j]? := by
  induction l generalizing s with
  | nil => rfl
  | cons a l ih =>
    rw [List.foldl_cons, ih _ (by rw [wake_term_eq]; exact hj), wake_frozen _ _ _ hj]

theorem terminateRec_trace (cid : Nat) (out : Except Exc Value) (s : RSt) :
    (terminateRec cid out s).trace = s.trace := by
  unfold terminateRec
  cases h : s.store[cid]? with
  | none => rfl
  | some r => simp [foldWake_trace, setRec_trace]

theorem terminateRec_len (cid : Nat) (out : Except Exc Value) (s : RSt) :
    (terminateRec cid out s).store.length = s.store.length := by
  unfold terminateRec
  cases h : s.store[cid]? with
  | none => rfl
  | some r => simp [foldWake_len, setRec_len]

theorem terminatedAt_setLive (st : RSt) (l : List Nat) (j : Nat) :
    terminatedAt { st with live := l } j = terminatedAt st j := rfl

theorem terminateRec_term (cid : Nat) (out : Except Exc Value) (s : RSt)
    (h : (s.store[cid]?).isSome) :
    terminatedAt (terminateRec cid out s) cid = true := by
  unfold terminateRec
  cases hr : s.store[cid]? with
  | none => rw [hr] at h; exact Bool.noConfusion h
  | some r =>
    have hlt := lt_len_of_get_some _ _ _ hr
    have hterm : terminatedAt (setRec s cid (setTerm out r)) cid = true := by
      unfold terminatedAt
      rw [setRec_store_self _ _ _ hlt]
      rfl
    show terminatedAt { r.waiting.foldl wake (setRec s cid (setTerm out r)) with
        live := (r.waiting.foldl wake (setRec s cid (setTerm out r))).live.erase cid }
        cid = true
    rw [terminatedAt_setLive, foldWake_term_eq]
    exact hterm

/-! ## Dispatch lemmas -/

theorem waitAct_trace (cid i : Nat) (aL : Bool) (s : RSt) :
    (waitCoroAct cid i aL s).1.trace = s.trace := by
  unfold waitCoroAct
  cases h : s.store[i]? with
  | none => rfl
  | some r =>
    by_cases ht : r.terminated <;>
      simp [ht, modifyRec_trace, setRec_trace]

theorem waitAct_aL (cid i : Nat) (aL : Bool) (s : RSt) :
    (waitCoroAct cid i aL s).2.1 = aL := by
  unfold waitCoroAct
  cases h : s.store[i]? with
  | none => rfl
  | some r => by_cases ht : r.terminated <;> simp [ht]

theorem waitAct_term_eq (cid i : Nat) (aL : Bool) (s : RSt) (j : Nat) :
    terminatedAt (waitCoroAct cid i aL s).1 j = terminatedAt s j := by
  unfold waitCoroAct
  split
  · rename_i r h
    split
    · rfl
    · show terminatedAt (modifyRec
          (setRec s i { r with waiting := r.waiting ++ [cid] }) cid
          fun c => { c with active := false }) j = terminatedAt s j
      rw [terminatedAt_modifyRec _ _ (fun c => { c with active := false }) (fun c => rfl),
        terminatedAt_setRec_keep s i r { r with waiting := r.waiting ++ [cid] } h rfl]
  · rfl

theorem waitAct_len (cid i : Nat) (aL : Bool) (s : RSt) :
    (waitCoroAct cid i aL s).1.store.length = s.store.length := by
  unfold waitCoroAct
  cases h : s.store[i]? with
  | none => rfl
  | some r =>
    by_cases ht : r.terminated
    · simp [ht]
    · simp only [ht, Bool.false_eq_true, if_neg, not_false_eq_true]
      rw [modifyRec_len, setRec_len]

theorem waitAct_live (cid i : Nat) (aL : Bool) (s : RSt) :
    (waitCoroAct cid i aL s).1.live = s.live := by
  unfold waitCoroAct
  cases h : s.store[i]? with
  | none => rfl
  | some r =>
    by_cases ht : r.terminated
    · simp [ht]
    · simp only [ht, Bool.false_eq_true, if_neg, not_false_eq_true]
      rw [modifyRec_live, setRec_live]

theorem dispatch_trace (cid : Nat) (name : String) (targ : Option Task)
    (args : List Value) (aL : Bool) (s : RSt) :
    (dispatchR cid name targ args aL s).1.trace = s.trace ++ [.act cid name] := by
  unfold dispatchR
  by_cases h1 : name = "new_coro"
  · rw [if_pos h1]; cases targ <;> rfl
  · rw [if_neg h1]
    by_cases h2 : name = "wait_coro"
    · rw [if_pos h2]
      cases args with
      | nil => rfl
      | cons a l =>
        cases l with
        | cons b l2 => cases a <;> rfl
        | nil =>
          cases a with
          | ref i => show (waitCoroAct cid i aL (pushEv s _)).1.trace = _
                     rw [waitAct_trace]; rfl
          | none => rfl
          | nat n => rfl
          | ids l3 => rfl
    · rw [if_neg h2]
      split_ifs <;> rfl

theorem dispatch_aL_of_ne (cid : Nat) (name : String) (targ : Option Task)
    (args : List Value) (aL : Bool) (s : RSt) (h : name ≠ "schedule") :
    (dispatchR cid name targ args aL s).2.1 = aL := by
  unfold dispatchR
  by_cases h1 : name = "new_coro"
  · rw [if_pos h1]; cases targ <;> rfl
  · rw [if_neg h1]
    by_cases h2 : name = "wait_coro"
    · rw [if_pos h2]
      cases args with
      | nil => rfl
      | cons a l =>
        cases l with
        | cons b l2 => cases a <;> rfl
        | nil =>
          cases a with
          | ref i => exact waitAct_aL ..
          | none => rfl
          | nat n => rfl
          | ids l3 => rfl
    · rw [if_neg h2]
      split_ifs <;> simp_all

theorem dispatch_term_eq (cid : Nat) (name : String) (targ : Option Task)
    (args : List Value) (aL : Bool) (s : RSt) (j : Nat) :
    terminatedAt (dispatchR cid name targ args aL s).1 j = terminatedAt s j := by
  unfold dispatchR
  by_cases h1 : name = "new_coro"
  · rw [if_pos h1]
    cases targ with
    | none => rfl
    | some t =>
      show terminatedAt (spawnSt (pushEv s (.act cid name)) t) j = terminatedAt s j
      have hst : (spawnSt (pushEv s (.act cid name)) t).store =
          s.store ++ [newRecord t] := rfl
      unfold terminatedAt
      rw [hst]
      rcases Nat.lt_trichotomy j s.store.length with hj | hj | hj
      · rw [List.getElem?_append_left hj]
      · subst hj
        rw [List.getElem?_append_right (le_refl _),
          List.getElem?_eq_none (le_refl s.store.length)]
        simp [newRecord]
      · rw [List.getElem?_eq_none (by simp; omega),
          List.getElem?_eq_none (by omega)]
  · rw [if_neg h1]
    by_cases h2 : name = "wait_coro"
    · rw [if_pos h2]
      cases args with
      | nil => rfl
      | cons a l =>
        cases l with
        | cons b l2 => cases a <;> rfl
        | nil =>
          cases a with
          | ref i =>
            show terminatedAt (waitCoroAct cid i aL (pushEv s _)).1 j = _
            rw [waitAct_term_eq]; rfl
          | none => rfl
          | nat n => rfl
          | ids l3 => rfl
    · rw [if_neg h2]
      split_ifs <;> rfl

theorem dispatch_len (cid : Nat) (name : String) (targ : Option Task)
    (args : List Value) (aL : Bool) (s : RSt) :
    s.store.length ≤ (dispatchR cid name targ args aL s).1.store.length := by
  unfold dispatchR
  by_cases h1 : name = "new_coro"
  · rw [if_pos h1]
    cases targ with
    | none => exact le_refl _
    | some t =>
      show s.store.length ≤ (newCoroAct t aL (pushEv s _)).1.store.length
      simp [newCoroAct, spawnSt, pushEv]
  · rw [if_neg h1]
    by_cases h2 : name = "wait_coro"
    · rw [if_pos h2]
      cases args with
      | nil => exact le_refl _
      | cons a l =>
        cases l with
        | cons b l2 => cases a <;> exact le_refl _
        | nil =>
          cases a with
          | ref i =>
            show s.store.length ≤ (waitCoroAct cid i aL (pushEv s _)).1.store.length
            rw [waitAct_len]
            exact le_refl _
          | none => exact le_refl _
          | nat n => exact le_refl _
          | ids l3 => exact le_refl _
    · rw [if_neg h2]
      split_ifs <;> exact le_refl _

theorem isSome_of_lt (s : RSt) (i : Nat) (h : i < s.store.length) :
    (s.store[i]?).isSome := by
  rw [List.getElem?_eq_getElem h]; rfl

/-- Structural facts about one record visit: the trace only grows, the store
only grows, and when the visit returns, the record has been driven until it
is inactive, terminated, has dispatched `schedule` (clearing the loop-local
flag), or the visit started with the loop-local flag already false. -/
theorem visit_props : ∀ (fuel cid : Nat) (aL : Bool) (s : RSt)
    (f2 : Nat) (s2 : RSt) (ab : Option Exc),
    visitRec fuel cid aL s = some (f2, s2, ab) →
    (∃ ext, s2.trace = s.trace ++ ext)
    ∧ s.store.length ≤ s2.store.length
    ∧ (activeAt s2 cid = false ∨ terminatedAt s2 cid = true
        ∨ TEv.act cid "schedule" ∈ s2.trace ∨ aL = false) := by
  intro fuel
  induction fuel with
  | zero =>
    intro cid aL s f2 s2 ab h
    exact Option.noConfusion h
  | succ fuel ih =>
    intro cid aL s f2 s2 ab h
    rw [visitRec] at h
    split at h
    · -- record absent (unreachable in real states): nothing happens
      rename_i hrec
      simp only [Option.some.injEq, Prod.mk.injEq] at h
      obtain ⟨-, h2, -⟩ := h
      subst h2
      refine ⟨⟨[], by simp⟩, le_refl _, Or.inl ?_⟩
      unfold activeAt; rw [hrec]
    · rename_i r hrec
      split at h
      · -- the guard `active and cinfo["active"]` held: resume once
        rename_i hguard
        split at h
        · -- the coroutine yielded a request
          rename_i name targ args k hout
          split at h
          · -- dispatch returned a value
            rename_i sc aL2 v hdisp
            have hrc := ih cid aL2 _ f2 s2 ab h
            obtain ⟨⟨ext, hext⟩, hlen, hdis⟩ := hrc
            rw [modifyRec_trace] at hext
            have hsc : sc = (dispatchR cid name targ args aL
                (setRec (pushEv s (.resume cid)) cid { r with coro := k })).1 := by
              rw [hdisp]
            have hsctr : sc.trace = s.trace ++ [.resume cid] ++ [.act cid name] := by
              rw [hsc, dispatch_trace, setRec_trace]; rfl
            have htr : ∃ ext2, s2.trace = s.trace ++ ext2 :=
              ⟨[.resume cid] ++ [.act cid name] ++ ext, by
                rw [hext, hsctr]; simp⟩
            refine ⟨htr, ?_, ?_⟩
            · calc s.store.length
                  = (setRec (pushEv s (.resume cid)) cid { r with coro := k }).store.length := by
                    rw [setRec_len]; rfl
                _ ≤ sc.store.length := by rw [hsc]; exact dispatch_len ..
                _ = (modifyRec sc cid fun c =>
                      { c with val := v, exc := Option.none }).store.length := by
                    rw [modifyRec_len]
                _ ≤ s2.store.length := hlen
            · rcases hdis with h1 | h1 | h1 | h1
              · exact Or.inl h1
              · exact Or.inr (Or.inl h1)
              · exact Or.inr (Or.inr (Or.inl h1))
              · -- the loop-local flag was cleared: only `schedule` does that
                by_cases hname : name = "schedule"
                · subst hname
                  refine Or.inr (Or.inr (Or.inl ?_))
                  rw [hext, hsctr]
                  simp
                · exfalso
                  have := dispatch_aL_of_ne cid name targ args aL
                    (setRec (pushEv s (.resume cid)) cid { r with coro := k }) hname
                  rw [hdisp] at this
                  simp only at this
                  subst this
                  simp only [Bool.and_eq_true] at hguard
                  rw [hguard.1] at h1
                  exact Bool.noConfusion h1
          · -- dispatch raised
            rename_i sc aL2 e hdisp
            have hsc : sc = (dispatchR cid name targ args aL
                (setRec (pushEv s (.resume cid)) cid { r with coro := k })).1 := by
              rw [hdisp]
            have hsctr : sc.trace = s.trace ++ [.resume cid] ++ [.act cid name] := by
              rw [hsc, dispatch_trace, setRec_trace]; rfl
            have hsclen : s.store.length ≤ sc.store.length := by
              calc s.store.length
                  = (setRec (pushEv s (.resume cid)) cid { r with coro := k }).store.length := by
                    rw [setRec_len]; rfl
                _ ≤ sc.store.length := by rw [hsc]; exact dispatch_len ..
            split at h
            · -- ordinary exception: stored into the record, loop continues
              have hrc := ih cid aL2 _ f2 s2 ab h
              obtain ⟨⟨ext, hext⟩, hlen, hdis⟩ := hrc
              rw [modifyRec_trace] at hext
              have htr : ∃ ext2, s2.trace = s.trace ++ ext2 :=
                ⟨[.resume cid] ++ [.act cid name] ++ ext, by
                  rw [hext, hsctr]; simp⟩
              refine ⟨htr, ?_, ?_⟩
              · calc s.store.length
                    ≤ sc.store.length := hsclen
                  _ = (modifyRec sc cid fun c =>
                        { c with val := .none, exc := some e }).store.length := by
                      rw [modifyRec_len]
                  _ ≤ s2.store.length := hlen
              · rcases hdis with h1 | h1 | h1 | h1
                · exact Or.inl h1
                · exact Or.inr (Or.inl h1)
                · exact Or.inr (Or.inr (Or.inl h1))
                · by_cases hname : name = "schedule"
                  · subst hname
                    refine Or.inr (Or.inr (Or.inl ?_))
                    rw [hext, hsctr]
                    simp
                  · exfalso
                    have := dispatch_aL_of_ne cid name targ args aL
                      (setRec (pushEv s (.resume cid)) cid { r with coro := k }) hname
                    rw [hdisp] at this
                    simp only at this
                    subst this
                    simp only [Bool.and_eq_true] at hguard
                    rw [hguard.1] at h1
                    exact Bool.noConfusion h1
            · -- fatal exception from the dispatcher: terminate and re-raise
              simp only [Option.some.injEq, Prod.mk.injEq] at h
              obtain ⟨-, h2, -⟩ := h
              subst h2
              refine ⟨⟨[.resume cid] ++ [.act cid name], by
                  rw [terminateRec_trace, hsctr]; simp⟩, ?_, ?_⟩
              · rw [terminateRec_len]; exact hsclen
              · refine Or.inr (Or.inl ?_)
                refine terminateRec_term _ _ _ (isSome_of_lt _ _ ?_)
                calc cid < s.store.length := lt_len_of_get_some _ _ _ hrec
                  _ ≤ sc.store.length := hsclen
        · -- the coroutine completed: StopIteration handling
          rename_i v hout
          simp only [Option.some.injEq, Prod.mk.injEq] at h
          obtain ⟨-, h2, -⟩ := h
          subst h2
          refine ⟨⟨[.resume cid], by rw [terminateRec_trace]; rfl⟩, ?_, ?_⟩
          · rw [terminateRec_len]; exact le_refl _
          · refine Or.inr (Or.inl ?_)
            refine terminateRec_term _ _ _ (isSome_of_lt _ _ ?_)
            exact lt_len_of_get_some _ _ _ hrec
        · -- the coroutine raised: failure handling
          rename_i e hout
          simp only [Option.some.injEq, Prod.mk.injEq] at h
          obtain ⟨-, h2, -⟩ := h
          subst h2
          refine ⟨⟨[.resume cid], by rw [terminateRec_trace]; rfl⟩, ?_, ?_⟩
          · rw [terminateRec_len]; exact le_refl _
          · refine Or.inr (Or.inl ?_)
            refine terminateRec_term _ _ _ (isSome_of_lt _ _ ?_)
            exact lt_len_of_get_some _ _ _ hrec
      · -- guard failed: the visit ends with the state unchanged
        rename_i hguard
        simp only [Option.some.injEq, Prod.mk.injEq] at h
        obtain ⟨-, h2, -⟩ := h
        subst h2
        refine ⟨⟨[], by simp⟩, le_refl _, ?_⟩
        by_cases haL : aL = true
        · refine Or.inl ?_
          unfold activeAt
          rw [hrec]
          simp only [haL, Bool.true_and] at hguard
          simpa using hguard
        · exact Or.inr (Or.inr (Or.inr (by simpa using haL)))

/-- Counterexample for claim C6: in the `rootC6x` run, the second sweep
visits the child (id 1) first; the child dispatches `schedule` and its visit
ends, after which the parent record (id 0) is visited — the `visit 0` event
follows the child's events in the trace — yet at that point the child is
neither inactive nor terminated: its `active` field is still `true`, it is
not terminated, and it is still in the registry (the parent's visit resumes
nothing, so the sweep's final state shows the child exactly as it was when
`visit 0` happened). -/
theorem C6_reverse_order_cx :
    c6step2.trace =
      [.sweep, .visit 0, .resume 0, .act 0 "new_coro", .resume 0, .act 0 "wait_coro",
       .sweep, .visit 1, .resume 1, .act 1 "schedule", .visit 0]
    ∧ ((c6step2.store[1]?).map Record.active) = some true
    ∧ ((c6step2.store[1]?).map Record.terminated) = some false
    ∧ 1 ∈ c6step2.live := by
  refine ⟨rfl, rfl, rfl, by decide⟩

/-- Claim C6 as amended: within one sweep, the live records of the sweep-start
snapshot are visited in reverse spawn order — for tasks spawned in order
[A, B, C] before the sweep, C executes before B before A within that same
sweep, as the `rootSpawn3` trace shows — and each visited record is driven,
before the next record is visited, until it is inactive, terminated, or has
yielded the rest of the sweep via `schedule` (which clears the loop-local
flag while leaving the record active). -/
theorem C6_reverse_order_amended :
    (∀ (fuel cid : Nat) (aL : Bool) (s : RSt) (f2 : Nat) (s2 : RSt) (ab : Option Exc),
        visitRec fuel cid aL s = some (f2, s2, ab) →
        activeAt s2 cid = false ∨ terminatedAt s2 cid = true
        ∨ TEv.act cid "schedule" ∈ s2.trace ∨ aL = false)
    ∧ (runRot 10 rootSpawn3).map Prod.fst = some (.ok .none)
    ∧ (runRot 10 rootSpawn3).map (fun p => p.2.trace) = some spawn3trace
    ∧ spawn3trace.drop 10 =
        [.sweep, .visit 3, .resume 3, .visit 2, .resume 2, .visit 1, .resume 1,
         .visit 0, .resume 0] := by
  exact ⟨fun fuel cid aL s f2 s2 ab h => (visit_props fuel cid aL s f2 s2 ab h).2.2,
    rfl, rfl, rfl⟩

/-- The state produced by a single complete visit of record 0 of a fresh
`childId 4` run. -/
def c6wS : RSt :=
  ((visitRec 3 0 true (initSt (childId 4))).map fun x => x.2.1).getD
    (initSt (childId 4))

/-- Witness for the amended C6: the visit-exit property applied to a concrete
completed visit. -/
theorem C6_reverse_order_amended_witness :
    visitRec 3 0 true (initSt (childId 4)) = some (2, c6wS, Option.none)
    ∧ (activeAt c6wS 0 = false ∨ terminatedAt c6wS 0 = true
        ∨ TEv.act 0 "schedule" ∈ c6wS.trace ∨ true = false) :=
  ⟨rfl, C6_reverse_order_amended.1 3 0 true (initSt (childId 4)) 2 c6wS Option.none rfl⟩

/-- `wait_coro` on a non-terminated target: the exact resulting state. -/
theorem waitAct_not_term (cid i : Nat) (aL : Bool) (s : RSt) (rT : Record)
    (hT : s.store[i]? = some rT) (hterm : rT.terminated = false) :
    waitCoroAct cid i aL s =
      (modifyRec (setRec s i { rT with waiting := rT.waiting ++ [cid] }) cid
        (fun c => { c with active := false }), aL, .ok .none) := by
  unfold waitCoroAct
  simp only [hT, hterm]
  rfl

/-- `wait_coro` on a terminated target returns immediately, no state change. -/
theorem waitAct_term_ret (cid i : Nat) (aL : Bool) (s : RSt) (rT : Record)
    (hT : s.store[i]? = some rT) (hterm : rT.terminated = true) :
    waitCoroAct cid i aL s = (s, aL, .ok .none) := by
  unfold waitCoroAct
  simp only [hT, hterm]
  rfl

/-- Claim C5: `wait_coro(record)` invoked by the currently visited record
`cid` on target record `i`: when the target's `terminated` is false, it
appends the caller's record to the target's `waiting_coros` and marks the
caller's `active` flag false (suspending the caller until woken); when the
target is already terminated, it returns `None` immediately with every record
untouched (only the ghost trace notes the dispatched action). -/
theorem C5_wait_coro (s : RSt) (cid i : Nat) (aL : Bool) (rT rC : Record)
    (hT : s.store[i]? = some rT) (hC : s.store[cid]? = some rC) (hne : i ≠ cid) :
    (rT.terminated = false →
      dispatchR cid "wait_coro" Option.none [.ref i] aL s =
        (modifyRec (setRec (pushEv s (.act cid "wait_coro")) i
            { rT with waiting := rT.waiting ++ [cid] }) cid
          (fun c => { c with active := false }), aL, .ok .none)
      ∧ ((dispatchR cid "wait_coro" Option.none [.ref i] aL s).1.store[i]?).map
          Record.waiting = some (rT.waiting ++ [cid])
      ∧ ((dispatchR cid "wait_coro" Option.none [.ref i] aL s).1.store[cid]?).map
          Record.active = some false)
    ∧ (rT.terminated = true →
      dispatchR cid "wait_coro" Option.none [.ref i] aL s =
        (pushEv s (.act cid "wait_coro"), aL, .ok .none)) := by
  have hred : dispatchR cid "wait_coro" Option.none [.ref i] aL s =
      waitCoroAct cid i aL (pushEv s (.act cid "wait_coro")) := rfl
  have hT1 : (pushEv s (.act cid "wait_coro")).store[i]? = some rT := hT
  have hC1 : (pushEv s (.act cid "wait_coro")).store[cid]? = some rC := hC
  constructor
  · intro hterm
    have heq := waitAct_not_term cid i aL (pushEv s (.act cid "wait_coro")) rT hT1 hterm
    have hs1C : (setRec (pushEv s (.act cid "wait_coro")) i
        { rT with waiting := rT.waiting ++ [cid] }).store[cid]? = some rC := by
      rw [setRec_store_ne _ _ _ _ hne]
      exact hC1
    have hmod : modifyRec (setRec (pushEv s (.act cid "wait_coro")) i
          { rT with waiting := rT.waiting ++ [cid] }) cid
          (fun c => { c with active := false }) =
        setRec (setRec (pushEv s (.act cid "wait_coro")) i
          { rT with waiting := rT.waiting ++ [cid] }) cid
          { rC with active := false } := by
      unfold modifyRec
      rw [hs1C]
    have hlenC : cid < (setRec (pushEv s (.act cid "wait_coro")) i
        { rT with waiting := rT.waiting ++ [cid] }).store.length :=
      lt_len_of_get_some _ _ _ hs1C
    have hlenI : i < s.store.length := lt_len_of_get_some _ _ _ hT
    refine ⟨by rw [hred, heq], ?_, ?_⟩
    · rw [hred, heq]
      simp only [hmod]
      rw [setRec_store_ne _ _ _ _ (Ne.symm hne),
        setRec_store_self _ _ _ (by simpa using hlenI)]
      rfl
    · rw [hred, heq]
      simp only [hmod]
      rw [setRec_store_self _ _ _ hlenC]
      rfl
  · intro hterm
    rw [hred, waitAct_term_ret cid i aL _ rT hT1 hterm]

/-- A two-record rotator state used as the C5 witness input. -/
def c5state : RSt :=
  { store := [newRecord (childId 7), newRecord (childId 8)]
    live := [0, 1]
    trace := [] }

/-- Witness for C5: record 0 waits on the fresh (non-terminated) record 1:
record 1's `waiting_coros` gains record 0, and record 0 is suspended. -/
theorem C5_wait_coro_witness :
    c5state.store[1]? = some (newRecord (childId 8))
    ∧ c5state.store[0]? = some (newRecord (childId 7))
    ∧ (1 : Nat) ≠ 0
    ∧ (newRecord (childId 8)).terminated = false
    ∧ ((dispatchR 0 "wait_coro" Option.none [.ref 1] true c5state).1.store[1]?).map
        Record.waiting = some ((newRecord (childId 8)).waiting ++ [0])
    ∧ ((dispatchR 0 "wait_coro" Option.none [.ref 1] true c5state).1.store[0]?).map
        Record.active = some false :=
  ⟨rfl, rfl, by decide, rfl,
    ((C5_wait_coro c5state 0 1 true (newRecord (childId 8)) (newRecord (childId 7))
      rfl rfl (by decide)).1 rfl).2.1,
    ((C5_wait_coro c5state 0 1 true (newRecord (childId 8)) (newRecord (childId 7))
      rfl rfl (by decide)).1 rfl).2.2⟩

/-! ## Action-table setup (`IBase._check_actions`)

The caller-supplied table is a Python dict: an association list of names to
handlers (`Handler.user` for caller handlers, opaque to the engine;
`Handler.bound` for the engine operations `_check_actions` injects from the
caller's `locals()`).  Insertion of a key that was just checked to be absent
appends at the end, matching dict insertion-order semantics.  A non-dict
argument is the `TableArg.notDict` case. -/
inductive Handler where
  | user (n : Nat) : Handler
  | bound (name : String) : Handler
  deriving DecidableEq

inductive TableArg where
  | notDict : TableArg
  | dict (t : List (String × Handler)) : TableArg

/-- The three setup failures: `TypeError` when `actions` is not a dict
(the spec's `InvalidTableError`), `ValueError` for a reserved name present in
`actions` (`DuplicateActionError`) and `ValueError` for a reserved name
absent from `locals_` (`MissingBindingError`). -/
inductive SetupErr where
  | invalidTable : SetupErr
  | duplicate (name : String) : SetupErr
  | missing (name : String) : SetupErr
  deriving DecidableEq

/-- The `for name in cls._reserved` loop of `_check_actions`: check the names
one at a time, inserting `actions[name] = locals_[name]` after the checks of
that name pass; return the (possibly mutated) table and the error raised. -/
def checkGo (bindings : List String) :
    List String → List (String × Handler) →
      List (String × Handler) × Option SetupErr
  | [], t => (t, Option.none)
  | n :: ns, t =>
    if n ∈ t.map Prod.fst then (t, some (.duplicate n))
    else if n ∈ bindings then checkGo bindings ns (t ++ [(n, .bound n)])
    else (t, some (.missing n))

/-- `_check_actions(actions, locals_)`: the isinstance check first, then the
reserved-name loop. -/
def checkActions (reserved bindings : List String) :
    TableArg → List (String × Handler) × Option SetupErr
  | .notDict => ([], some .invalidTable)
  | .dict t => checkGo bindings reserved t

/-- The exception each setup failure raises in the source. -/
def excOfSetup : SetupErr → Exc
  | .invalidTable => .err "TypeError" "actions is not an instance of dict"
  | .duplicate n => .err "ValueError" (n ++ " is in actions")
  | .missing n => .err "ValueError" (n ++ " is not in locals")

/-- `IStack._reserved`. -/
def stackReserved : List String := ["stack_add"]

/-- The names bound in `IStack.run`'s `locals()` when `_check_actions` runs. -/
def stackBindings : List String := ["cls", "coro", "actions", "stack_add"]

/-- `IRotator._reserved`. -/
def rotReserved : List String :=
  ["new_coro", "wait_coro", "this_id", "this_info", "all_info", "schedule"]

/-- The names bound in `IRotator.run`'s `locals()` when `_check_actions`
runs. -/
def rotBindings : List String :=
  ["cls", "coro", "actions", "_suspend", "_pull_active", "_check_info",
   "_new_coro_adder", "new_coro", "wait_coro", "this_id", "this_info",
   "all_info", "schedule"]

/-- `IStack.run` from the top: validate/bind the table, then run the loop.
Returns the table as `run` leaves it and the run's result. -/
def stackRunFull (fuel : Nat) (coro : Task) (ta : TableArg) :
    List (String × Handler) × Option (Except Exc Value) :=
  match checkActions stackReserved stackBindings ta with
  | (t2, some e) => (t2, some (.error (excOfSetup e)))
  | (t2, Option.none) => (t2, runStack fuel { stack := [coro], pend := .ok .none })

/-- `IRotator.run` from the top. -/
def rotRunFull (fuel : Nat) (coro : Task) (ta : TableArg) :
    List (String × Handler) × Option (Except Exc Value) :=
  match checkActions rotReserved rotBindings ta with
  | (t2, some e) => (t2, some (.error (excOfSetup e)))
  | (t2, Option.none) => (t2, (runRot fuel coro).map Prod.fst)

theorem checkGo_none (b : List String) :
    ∀ (ns : List String) (t : List (String × Handler)),
      (checkGo b ns t).2 = Option.none →
      ∀ n ∈ ns, n ∉ t.map Prod.fst ∧ n ∈ b := by
  intro ns
  induction ns with
  | nil => intro t h n hn; exact absurd hn (List.not_mem_nil n)
  | cons m ms ih =>
    intro t h n hn
    rw [checkGo] at h
    by_cases h1 : m ∈ t.map Prod.fst
    · rw [if_pos h1] at h
      simp at h
    · rw [if_neg h1] at h
      by_cases h2 : m ∈ b
      · rw [if_pos h2] at h
        rcases List.mem_cons.mp hn with rfl | hn2
        · exact ⟨h1, h2⟩
        · have := ih _ h n hn2
          refine ⟨fun hk => this.1 ?_, this.2⟩
          simp only [List.map_append, List.mem_append]
          exact Or.inl hk
      · rw [if_neg h2] at h
        simp at h

theorem checkGo_dup (b : List String) :
    ∀ (ns : List String) (t : List (String × Handler)) (n : String), ns.Nodup →
      (checkGo b ns t).2 = some (.duplicate n) →
      n ∈ ns ∧ n ∈ t.map Prod.fst := by
  intro ns
  induction ns with
  | nil => intro t n _ h; simp [checkGo] at h
  | cons m ms ih =>
    intro t n hnd h
    rw [checkGo] at h
    split_ifs at h with h1 h2
    · simp only [Option.some.injEq, SetupErr.duplicate.injEq] at h
      subst h
      exact ⟨List.mem_cons_self .., h1⟩
    · have := ih _ n (List.Nodup.of_cons hnd) h
      refine ⟨List.mem_cons_of_mem m this.1, ?_⟩
      have h3 := this.2
      simp only [List.map_append, List.mem_append, List.map_cons, List.map_nil] at h3
      rcases h3 with h3 | h3
      · exact h3
      · exfalso
        simp only [List.mem_singleton] at h3
        subst h3
        exact (List.nodup_cons.mp hnd).1 this.1
    · simp at h

theorem checkGo_missing (b : List String) :
    ∀ (ns : List String) (t : List (String × Handler)) (n : String),
      (checkGo b ns t).2 = some (.missing n) → n ∈ ns ∧ n ∉ b := by
  intro ns
  induction ns with
  | nil => intro t n h; simp [checkGo] at h
  | cons m ms ih =>
    intro t n h
    rw [checkGo] at h
    split_ifs at h with h1 h2
    · simp at h
    · have := ih _ n h
      exact ⟨List.mem_cons_of_mem m this.1, this.2⟩
    · simp only [Option.some.injEq, SetupErr.missing.injEq] at h
      subst h
      exact ⟨List.mem_cons_self .., h2⟩

theorem checkGo_ok (b : List String) :
    ∀ (ns : List String) (t : List (String × Handler)), ns.Nodup →
      (∀ n ∈ ns, n ∉ t.map Prod.fst) → (∀ n ∈ ns, n ∈ b) →
      checkGo b ns t =
        (t ++ ns.map (fun m => (m, Handler.bound m)), Option.none) := by
  intro ns
  induction ns with
  | nil => intro t _ _ _; simp [checkGo]
  | cons m ms ih =>
    intro t hnd hkeys hb
    rw [checkGo,
      if_neg (hkeys m (List.mem_cons_self ..)),
      if_pos (hb m (List.mem_cons_self ..))]
    rw [ih (t ++ [(m, Handler.bound m)]) (List.Nodup.of_cons hnd) ?keys ?bnd]
    · simp
    case keys =>
      intro n hn
      simp only [List.map_append, List.mem_append, List.map_cons, List.map_nil,
        List.mem_singleton]
      rintro (hk | rfl)
      · exact hkeys n (List.mem_cons_of_mem m hn) hk
      · exact (List.nodup_cons.mp hnd).1 hn
    case bnd =>
      intro n hn
      exact hb n (List.mem_cons_of_mem m hn)

theorem checkGo_mut (b : List String) :
    ∀ (ns : List String) (t : List (String × Handler)) (e : SetupErr),
      (checkGo b ns t).2 = some e →
      ∃ pre n suf, ns = pre ++ n :: suf
        ∧ (checkGo b ns t).1 = t ++ pre.map (fun m => (m, Handler.bound m))
        ∧ ((e = .duplicate n
              ∧ n ∈ (t ++ pre.map fun m => (m, Handler.bound m)).map Prod.fst)
            ∨ (e = .missing n ∧ n ∉ b)) := by
  intro ns
  induction ns with
  | nil => intro t e h; simp [checkGo] at h
  | cons m ms ih =>
    intro t e h
    rw [checkGo] at h
    by_cases h1 : m ∈ t.map Prod.fst
    · rw [if_pos h1] at h
      simp only [Option.some.injEq] at h
      subst h
      refine ⟨[], m, ms, rfl, ?_, Or.inl ⟨rfl, by simpa using h1⟩⟩
      rw [checkGo, if_pos h1]
      simp
    · rw [if_neg h1] at h
      by_cases h2 : m ∈ b
      · rw [if_pos h2] at h
        obtain ⟨pre, n, suf, hns, h3, h4⟩ := ih (t ++ [(m, Handler.bound m)]) e h
        refine ⟨m :: pre, n, suf, by rw [hns]; rfl, ?_, ?_⟩
        · rw [checkGo, if_neg h1, if_pos h2, h3]
          simp
        · rcases h4 with ⟨he, hk⟩ | h4
          · refine Or.inl ⟨he, ?_⟩
            simpa [List.append_assoc] using hk
          · exact Or.inr h4
      · rw [if_neg h2] at h
        simp only [Option.some.injEq] at h
        subst h
        refine ⟨[], m, ms, rfl, ?_, Or.inr ⟨rfl, h2⟩⟩
        rw [checkGo, if_neg h1, if_neg h2]
        simp

/-- Claim C4: `run(task, actions)` fails at setup, before any task runs (the
result is independent of the task and the fuel), with the `TypeError` of a
non-dict table (the spec's `InvalidTableError`); with `DuplicateActionError`
exactly when, bindings being complete as they are in both engines, some
reserved name is already in the supplied table; with `MissingBindingError`
exactly when, no reserved name being in the table, some reserved name is
absent from the local bindings; and otherwise it proceeds to the engine loop,
whose outcome — the root task's value or its propagated terminal failure —
becomes `run`'s result. -/
theorem C4_setup_validation :
    (∀ (fuel : Nat) (coro : Task),
        (stackRunFull fuel coro .notDict).2 = some (.error (excOfSetup .invalidTable))
        ∧ (rotRunFull fuel coro .notDict).2 = some (.error (excOfSetup .invalidTable)))
    ∧ (∀ (b ns : List String) (t : List (String × Handler)), ns.Nodup →
        (∀ n ∈ ns, n ∈ b) →
        (((checkGo b ns t).2 = Option.none) ↔ ∀ n ∈ ns, n ∉ t.map Prod.fst)
        ∧ (∀ n, (checkGo b ns t).2 = some (.duplicate n) →
            n ∈ ns ∧ n ∈ t.map Prod.fst)
        ∧ (∀ n, (checkGo b ns t).2 = some (.missing n) → False))
    ∧ (∀ (b ns : List String) (t : List (String × Handler)), ns.Nodup →
        (∀ n ∈ ns, n ∉ t.map Prod.fst) →
        (((checkGo b ns t).2 = Option.none) ↔ ∀ n ∈ ns, n ∈ b)
        ∧ (∀ n, (checkGo b ns t).2 = some (.missing n) → n ∈ ns ∧ n ∉ b)
        ∧ (∀ n, (checkGo b ns t).2 = some (.duplicate n) → False))
    ∧ (∀ (fuel : Nat) (coro : Task) (t t2 : List (String × Handler)),
        checkActions stackReserved stackBindings (.dict t) = (t2, Option.none) →
        (stackRunFull fuel coro (.dict t)).2 =
          runStack fuel { stack := [coro], pend := .ok .none })
    ∧ (∀ (fuel : Nat) (coro : Task) (t t2 : List (String × Handler)) (e : SetupErr),
        checkActions stackReserved stackBindings (.dict t) = (t2, some e) →
        (stackRunFull fuel coro (.dict t)).2 = some (.error (excOfSetup e)))
    ∧ (∀ (fuel : Nat) (coro : Task) (t t2 : List (String × Handler)),
        checkActions rotReserved rotBindings (.dict t) = (t2, Option.none) →
        (rotRunFull fuel coro (.dict t)).2 = (runRot fuel coro).map Prod.fst)
    ∧ (∀ (fuel : Nat) (coro : Task) (t t2 : List (String × Handler)) (e : SetupErr),
        checkActions rotReserved rotBindings (.dict t) = (t2, some e) →
        (rotRunFull fuel coro (.dict t)).2 = some (.error (excOfSetup e))) := by
  refine ⟨fun fuel coro => ⟨rfl, rfl⟩, ?_, ?_, ?_, ?_, ?_, ?_⟩
  · intro b ns t hnd hb
    refine ⟨⟨fun h n hn => (checkGo_none b ns t h n hn).1, fun h => ?_⟩, ?_, ?_⟩
    · rw [checkGo_ok b ns t hnd h hb]
    · intro n h
      exact checkGo_dup b ns t n hnd h
    · intro n h
      have := checkGo_missing b ns t n h
      exact this.2 (hb n this.1)
  · intro b ns t hnd hkeys
    refine ⟨⟨fun h n hn => (checkGo_none b ns t h n hn).2, fun h => ?_⟩, ?_, ?_⟩
    · rw [checkGo_ok b ns t hnd hkeys h]
    · intro n h
      exact checkGo_missing b ns t n h
    · intro n h
      have := checkGo_dup b ns t n hnd h
      exact hkeys n this.1 this.2
  · intro fuel coro t t2 h
    unfold stackRunFull
    rw [show checkActions stackReserved stackBindings (.dict t) =
      checkGo stackBindings stackReserved t from rfl] at h ⊢
    rw [h]
  · intro fuel coro t t2 e h
    unfold stackRunFull
    rw [show checkActions stackReserved stackBindings (.dict t) =
      checkGo stackBindings stackReserved t from rfl] at h ⊢
    rw [h]
  · intro fuel coro t t2 h
    unfold rotRunFull
    rw [show checkActions rotReserved rotBindings (.dict t) =
      checkGo rotBindings rotReserved t from rfl] at h ⊢
    rw [h]
  · intro fuel coro t t2 e h
    unfold rotRunFull
    rw [show checkActions rotReserved rotBindings (.dict t) =
      checkGo rotBindings rotReserved t from rfl] at h ⊢
    rw [h]

/-- Witness for C4: the rotator's actual reserved names and bindings satisfy
the hypotheses, instantiated on the empty table. -/
theorem C4_setup_validation_witness :
    rotReserved.Nodup ∧ (∀ n ∈ rotReserved, n ∈ rotBindings)
    ∧ (((checkGo rotBindings rotReserved []).2 = Option.none) ↔
        ∀ n ∈ rotReserved, n ∉ ([] : List (String × Handler)).map Prod.fst) :=
  ⟨by decide, by decide,
    (C4_setup_validation.2.1 rotBindings rotReserved [] (by decide) (by decide)).1⟩

/-- Claim C10: `_check_actions` checks and inserts reserved names one at a
time, in order: when the check fails at a later reserved name, every reserved
name processed earlier has already been inserted into the caller's table
(which is mutated in place and keeps those insertions after `run` raises);
concretely, the rotator engine handed the table `{"wait_coro": user0}` raises
the duplicate-name error for `"wait_coro"` while having already inserted
`"new_coro"`, leaving the caller's table observably mutated. -/
theorem C10_setup_mutation :
    (∀ (b ns : List String) (t : List (String × Handler)) (e : SetupErr),
        (checkGo b ns t).2 = some e →
        ∃ pre n suf, ns = pre ++ n :: suf
          ∧ (checkGo b ns t).1 = t ++ pre.map (fun m => (m, Handler.bound m))
          ∧ ((e = .duplicate n
                ∧ n ∈ (t ++ pre.map fun m => (m, Handler.bound m)).map Prod.fst)
              ∨ (e = .missing n ∧ n ∉ b)))
    ∧ (rotRunFull 5 (childId 1) (.dict [("wait_coro", Handler.user 0)])).1 =
        [("wait_coro", Handler.user 0), ("new_coro", Handler.bound "new_coro")]
    ∧ (rotRunFull 5 (childId 1) (.dict [("wait_coro", Handler.user 0)])).2 =
        some (.error (excOfSetup (.duplicate "wait_coro")))
    ∧ [("wait_coro", Handler.user 0), ("new_coro", Handler.bound "new_coro")] ≠
        [("wait_coro", Handler.user 0)] := by
  refine ⟨checkGo_mut, rfl, rfl, by decide⟩

/-- Witness for C10: the prefix-mutation property applied at the concrete
failing table of the scenario. -/
theorem C10_setup_mutation_witness :
    (checkGo rotBindings rotReserved [("wait_coro", Handler.user 0)]).2 =
      some (.duplicate "wait_coro")
    ∧ ∃ pre n suf, rotReserved = pre ++ n :: suf
        ∧ (checkGo rotBindings rotReserved [("wait_coro", Handler.user 0)]).1 =
            [("wait_coro", Handler.user 0)] ++
              pre.map (fun m => (m, Handler.bound m))
        ∧ ((SetupErr.duplicate "wait_coro" = .duplicate n
              ∧ n ∈ ([("wait_coro", Handler.user 0)] ++
                  pre.map fun m => (m, Handler.bound m)).map Prod.fst)
            ∨ (SetupErr.duplicate "wait_coro" = .missing n ∧ n ∉ rotBindings)) :=
  ⟨rfl, C10_setup_mutation.1 rotBindings rotReserved
    [("wait_coro", Handler.user 0)] (.duplicate "wait_coro") rfl⟩

/-! ## The termination invariant of the rotator (claim C9) -/

/-- The rotator's state invariant: registry ids are distinct and in range,
and a terminated record is inactive and evicted from the registry. -/
def Inv (s : RSt) : Prop :=
  s.live.Nodup ∧ (∀ i ∈ s.live, i < s.store.length) ∧
  ∀ i, i < s.store.length → terminatedAt s i = true →
    activeAt s i = false ∧ i ∉ s.live

/-- Terminated records are frozen across a state transition: the record is
bit-for-bit unchanged and stays out of the registry. -/
def pres (s s2 : RSt) : Prop :=
  s.store.length ≤ s2.store.length ∧
  ∀ i, i < s.store.length → terminatedAt s i = true →
    s2.store[i]? = s.store[i]? ∧ i ∉ s2.live

theorem pres_of_inv_refl (s : RSt) (h : Inv s) : pres s s :=
  ⟨le_refl _, fun i hi ht => ⟨rfl, (h.2.2 i hi ht).2⟩⟩

theorem terminatedAt_congr (s s2 : RSt) (i : Nat)
    (h : s2.store[i]? = s.store[i]?) : terminatedAt s2 i = terminatedAt s i := by
  unfold terminatedAt
  rw [h]

theorem pres_trans (s s2 s3 : RSt) (h1 : pres s s2) (h2 : pres s2 s3) :
    pres s s3 := by
  refine ⟨le_trans h1.1 h2.1, ?_⟩
  intro i hi ht
  have hrec := h1.2 i hi ht
  have ht2 : terminatedAt s2 i = true := by
    rw [terminatedAt_congr s s2 i hrec.1]
    exact ht
  have hrec2 := h2.2 i (lt_of_lt_of_le hi h1.1) ht2
  exact ⟨hrec2.1.trans hrec.1, hrec2.2⟩

theorem invpres_pushEv (s : RSt) (e : TEv) (h : Inv s) :
    Inv (pushEv s e) ∧ pres s (pushEv s e) :=
  ⟨h, ⟨le_refl _, fun i hi ht => ⟨rfl, (h.2.2 i hi ht).2⟩⟩⟩

theorem activeAt_setRec_ne (s : RSt) (i : Nat) (r : Record) (j : Nat) (hj : i ≠ j) :
    activeAt (setRec s i r) j = activeAt s j := by
  unfold activeAt
  rw [setRec_store_ne _ _ _ _ hj]

/-- Overwriting a non-terminated record with a non-terminated record keeps
the invariant, and freezes nothing that was frozen. -/
theorem invpres_setRec (s : RSt) (i : Nat) (r r2 : Record)
    (hr : s.store[i]? = some r) (ht : r.terminated = false)
    (ht2 : r2.terminated = false) (h : Inv s) :
    Inv (setRec s i r2) ∧ pres s (setRec s i r2) := by
  have hlen := setRec_len s i r2
  have hlive := setRec_live s i r2
  constructor
  · refine ⟨by rw [hlive]; exact h.1, ?_, ?_⟩
    · intro j hj
      rw [hlive] at hj
      rw [hlen]
      exact h.2.1 j hj
    · intro j hj hterm
      rw [hlen] at hj
      rcases eq_or_ne i j with rfl | hij
      · exfalso
        unfold terminatedAt at hterm
        rw [setRec_store_self _ _ _ (lt_len_of_get_some _ _ _ hr)] at hterm
        simp only at hterm
        rw [ht2] at hterm
        exact Bool.noConfusion hterm
      · have hterm2 : terminatedAt s j = true := by
          unfold terminatedAt at hterm ⊢
          rw [setRec_store_ne _ _ _ _ hij] at hterm
          exact hterm
        have := h.2.2 j hj hterm2
        refine ⟨?_, by rw [hlive]; exact this.2⟩
        rw [activeAt_setRec_ne _ _ _ _ hij]
        exact this.1
  · refine ⟨le_of_eq hlen.symm, ?_⟩
    intro j hj hterm
    have hij : i ≠ j := by
      rintro rfl
      unfold terminatedAt at hterm
      rw [hr] at hterm
      simp only at hterm
      rw [ht] at hterm
      exact Bool.noConfusion hterm
    refine ⟨setRec_store_ne _ _ _ _ hij, ?_⟩
    rw [hlive]
    exact (h.2.2 j hj hterm).2

/-- A field update that keeps the `terminated` flag of a non-terminated
record preserves the invariant. -/
theorem invpres_modify_keep (s : RSt) (i : Nat) (f : Record → Record)
    (hf : ∀ c, (f c).terminated = c.terminated)
    (hterm : terminatedAt s i = false) (h : Inv s) :
    Inv (modifyRec s i f) ∧ pres s (modifyRec s i f) := by
  unfold modifyRec
  cases hr : s.store[i]? with
  | none => exact ⟨h, pres_of_inv_refl s h⟩
  | some c =>
    have hc : c.terminated = false := by
      unfold terminatedAt at hterm
      rw [hr] at hterm
      simpa using hterm
    exact invpres_setRec s i c (f c) hr hc (by rw [hf c]; exact hc) h

/-- Spawning a fresh record (the `new_coro` insertion) preserves the
invariant and freezes nothing. -/
theorem invpres_newCoro (s : RSt) (t : Task) (h : Inv s) :
    Inv (spawnSt s t) ∧ pres s (spawnSt s t) := by
  have hst : (spawnSt s t).store = s.store ++ [newRecord t] := rfl
  have hlv : (spawnSt s t).live = s.live ++ [s.store.length] := rfl
  constructor
  · refine ⟨?_, ?_, ?_⟩
    · rw [hlv, List.nodup_append]
      refine ⟨h.1, List.nodup_singleton _, ?_⟩
      intro a ha hb
      simp only [List.mem_singleton] at hb
      subst hb
      exact absurd (h.2.1 _ ha) (lt_irrefl _)
    · intro j hj
      rw [hlv] at hj
      simp only [List.mem_append, List.mem_singleton] at hj
      rw [hst]
      simp only [List.length_append, List.length_singleton]
      rcases hj with hj | rfl
      · exact lt_of_lt_of_le (h.2.1 j hj) (Nat.le_add_right _ _)
      · omega
    · intro j hj hterm
      rw [hst] at hj
      simp only [List.length_append, List.length_singleton] at hj
      rcases Nat.lt_or_ge j s.store.length with hlt | hge
      · have hterm2 : terminatedAt s j = true := by
          unfold terminatedAt at hterm ⊢
          rw [hst, List.getElem?_append_left hlt] at hterm
          exact hterm
        have h3 := h.2.2 j hlt hterm2
        constructor
        · unfold activeAt at h3 ⊢
          rw [hst, List.getElem?_append_left hlt]
          exact h3.1
        · rw [hlv]
          simp only [List.mem_append, List.mem_singleton]
          rintro (hmem | rfl)
          · exact h3.2 hmem
          · exact absurd hlt (lt_irrefl _)
      · exfalso
        have hj2 : j = s.store.length := by omega
        subst hj2
        unfold terminatedAt at hterm
        rw [hst, List.getElem?_append_right (le_refl _)] at hterm
        simp [newRecord] at hterm
  · refine ⟨by rw [hst]; simp, ?_⟩
    intro j hj hterm
    have h3 := h.2.2 j hj hterm
    constructor
    · rw [hst]
      exact List.getElem?_append_left hj
    · rw [hlv]
      simp only [List.mem_append, List.mem_singleton]
      rintro (hmem | rfl)
      · exact h3.2 hmem
      · exact absurd hj (lt_irrefl _)

theorem invpres_wake (s : RSt) (w : Nat) (h : Inv s) :
    Inv (wake s w) ∧ pres s (wake s w) := by
  unfold wake
  split
  · exact ⟨h, pres_of_inv_refl s h⟩
  · rename_i r hr
    split
    · exact ⟨h, pres_of_inv_refl s h⟩
    · rename_i ht
      exact invpres_setRec s w r
        { r with active := true, val := .none, exc := Option.none } hr
        (by simpa using ht) (by simpa using ht) h

theorem invpres_foldWake (l : List Nat) (s : RSt) (h : Inv s) :
    Inv (l.foldl wake s) ∧ pres s (l.foldl wake s) := by
  induction l generalizing s with
  | nil => exact ⟨h, pres_of_inv_refl s h⟩
  | cons a l ih =>
    rw [List.foldl_cons]
    have h1 := invpres_wake s a h
    have h2 := ih (wake s a) h1.1
    exact ⟨h2.1, pres_trans _ _ _ h1.2 h2.2⟩

theorem activeAt_setLive (st : RSt) (l : List Nat) (j : Nat) :
    activeAt { st with live := l } j = activeAt st j := rfl

/-- Terminating the currently running (hence non-terminated) record preserves
the invariant; in particular every already-terminated record — including one
the wake loop encounters in `waiting_coros` — stays frozen. -/
theorem invpres_terminateRec (cid : Nat) (out : Except Exc Value) (s : RSt)
    (hterm : terminatedAt s cid = false) (h : Inv s) :
    Inv (terminateRec cid out s) ∧ pres s (terminateRec cid out s) := by
  unfold terminateRec
  split
  · exact ⟨h, pres_of_inv_refl s h⟩
  · rename_i r hr
    have hlt : cid < s.store.length := lt_len_of_get_some _ _ _ hr
    have hS1cid : (setRec s cid (setTerm out r)).store[cid]? = some (setTerm out r) :=
      setRec_store_self _ _ _ hlt
    have htermS1 : terminatedAt (setRec s cid (setTerm out r)) cid = true := by
      unfold terminatedAt
      rw [hS1cid]
      rfl
    have hS2cid : (r.waiting.foldl wake (setRec s cid (setTerm out r))).store[cid]? =
        some (setTerm out r) := by
      rw [foldWake_frozen _ _ _ htermS1]
      exact hS1cid
    have htermS1j : ∀ j, j ≠ cid →
        terminatedAt (setRec s cid (setTerm out r)) j = terminatedAt s j := by
      intro j hj
      unfold terminatedAt
      rw [setRec_store_ne _ _ _ _ (Ne.symm hj)]
    have hfrozen : ∀ j, j ≠ cid → terminatedAt s j = true →
        (r.waiting.foldl wake (setRec s cid (setTerm out r))).store[j]? =
          s.store[j]? := by
      intro j hj htj
      rw [foldWake_frozen _ _ _ (by rw [htermS1j j hj]; exact htj)]
      exact setRec_store_ne _ _ _ _ (Ne.symm hj)
    have hlive : (r.waiting.foldl wake (setRec s cid (setTerm out r))).live = s.live := by
      rw [foldWake_live, setRec_live]
    have hlen : (r.waiting.foldl wake (setRec s cid (setTerm out r))).store.length =
        s.store.length := by
      rw [foldWake_len, setRec_len]
    constructor
    · refine ⟨?_, ?_, ?_⟩
      · show ((r.waiting.foldl wake (setRec s cid (setTerm out r))).live.erase cid).Nodup
        rw [hlive]
        exact h.1.erase cid
      · intro j hj
        have hj2 : j ∈ (r.waiting.foldl wake (setRec s cid (setTerm out r))).live.erase cid := hj
        rw [hlive] at hj2
        show j < (r.waiting.foldl wake (setRec s cid (setTerm out r))).store.length
        rw [hlen]
        exact h.2.1 j (List.mem_of_mem_erase hj2)
      · intro j hj htj
        have hj2 : j < (r.waiting.foldl wake (setRec s cid (setTerm out r))).store.length := hj
        rw [hlen] at hj2
        have htj2 : terminatedAt (r.waiting.foldl wake (setRec s cid (setTerm out r))) j = true := htj
        rw [foldWake_term_eq] at htj2
        rcases eq_or_ne j cid with rfl | hjc
        · constructor
          · show activeAt (r.waiting.foldl wake (setRec s j (setTerm out r))) j = false
            unfold activeAt
            rw [hS2cid]
            rfl
          · show j ∉ (r.waiting.foldl wake (setRec s j (setTerm out r))).live.erase j
            rw [hlive]
            intro hmem
            exact ((h.1.mem_erase_iff).mp hmem).1 rfl
        · rw [htermS1j j hjc] at htj2
          have h3 := h.2.2 j hj2 htj2
          constructor
          · show activeAt (r.waiting.foldl wake (setRec s cid (setTerm out r))) j = false
            unfold activeAt
            rw [hfrozen j hjc htj2]
            unfold activeAt at h3
            exact h3.1
          · show j ∉ (r.waiting.foldl wake (setRec s cid (setTerm out r))).live.erase cid
            rw [hlive]
            intro hmem
            exact h3.2 (List.mem_of_mem_erase hmem)
    · constructor
      · show s.store.length ≤ (r.waiting.foldl wake (setRec s cid (setTerm out r))).store.length
        rw [hlen]
      · intro j hj htj
        have hjc : j ≠ cid := by
          rintro rfl
          rw [htj] at hterm
          exact Bool.noConfusion hterm
        have h3 := h.2.2 j hj htj
        refine ⟨hfrozen j hjc htj, ?_⟩
        show j ∉ (r.waiting.foldl wake (setRec s cid (setTerm out r))).live.erase cid
        rw [hlive]
        intro hmem
        exact h3.2 (List.mem_of_mem_erase hmem)

theorem invpres_waitAct (cid i : Nat) (aL : Bool) (s : RSt)
    (hterm : terminatedAt s cid = false) (h : Inv s) :
    Inv (waitCoroAct cid i aL s).1 ∧ pres s (waitCoroAct cid i aL s).1 := by
  unfold waitCoroAct
  split
  · rename_i rT hT
    split
    · exact ⟨h, pres_of_inv_refl s h⟩
    · rename_i ht
      have h1 := invpres_setRec s i rT { rT with waiting := rT.waiting ++ [cid] }
        hT (by simpa using ht) (by simpa using ht) h
      have htc : terminatedAt (setRec s i { rT with waiting := rT.waiting ++ [cid] })
          cid = false := by
        rw [terminatedAt_setRec_keep s i rT
          { rT with waiting := rT.waiting ++ [cid] } hT rfl cid]
        exact hterm
      have h2 := invpres_modify_keep
        (setRec s i { rT with waiting := rT.waiting ++ [cid] }) cid
        (fun c => { c with active := false }) (fun c => rfl) htc h1.1
      exact ⟨h2.1, pres_trans _ _ _ h1.2 h2.2⟩
  · exact ⟨h, pres_of_inv_refl s h⟩

theorem invpres_dispatch (cid : Nat) (name : String) (targ : Option Task)
    (args : List Value) (aL : Bool) (s : RSt)
    (hterm : terminatedAt s cid = false) (h : Inv s) :
    Inv (dispatchR cid name targ args aL s).1
    ∧ pres s (dispatchR cid name targ args aL s).1 := by
  have hp := invpres_pushEv s (.act cid name) h
  unfold dispatchR
  by_cases h1 : name = "new_coro"
  · rw [if_pos h1]
    cases targ with
    | none => exact hp
    | some t =>
      show Inv (newCoroAct t aL (pushEv s (.act cid name))).1
        ∧ pres s (newCoroAct t aL (pushEv s (.act cid name))).1
      have h2 := invpres_newCoro (pushEv s (.act cid name)) t hp.1
      exact ⟨h2.1, pres_trans _ _ _ hp.2 h2.2⟩
  · rw [if_neg h1]
    by_cases h2 : name = "wait_coro"
    · rw [if_pos h2]
      cases args with
      | nil => exact hp
      | cons a l =>
        cases l with
        | cons b l2 => cases a <;> exact hp
        | nil =>
          cases a with
          | ref i =>
            show Inv (waitCoroAct cid i aL (pushEv s (.act cid name))).1
              ∧ pres s (waitCoroAct cid i aL (pushEv s (.act cid name))).1
            have h3 := invpres_waitAct cid i aL (pushEv s (.act cid name)) hterm hp.1
            exact ⟨h3.1, pres_trans _ _ _ hp.2 h3.2⟩
          | none => exact hp
          | nat n => exact hp
          | ids l3 => exact hp
    · rw [if_neg h2]
      split_ifs <;> exact hp

/-- One record visit preserves the invariant and freezes every terminated
record. -/
theorem invpres_visitRec : ∀ (fuel cid : Nat) (aL : Bool) (s : RSt)
    (f2 : Nat) (s2 : RSt) (ab : Option Exc),
    Inv s → visitRec fuel cid aL s = some (f2, s2, ab) → Inv s2 ∧ pres s s2 := by
  intro fuel
  induction fuel with
  | zero => intro cid aL s f2 s2 ab h hv; exact Option.noConfusion hv
  | succ fuel ih =>
    intro cid aL s f2 s2 ab h hv
    rw [visitRec] at hv
    split at hv
    · simp only [Option.some.injEq, Prod.mk.injEq] at hv
      obtain ⟨-, h2, -⟩ := hv
      subst h2
      exact ⟨h, pres_of_inv_refl s h⟩
    · rename_i r hrec
      split at hv
      · rename_i hguard
        have hact : r.active = true := by
          simp only [Bool.and_eq_true] at hguard
          exact hguard.2
        have htermc : terminatedAt s cid = false := by
          by_contra hc
          have hc2 : terminatedAt s cid = true := by
            rcases Bool.eq_false_or_eq_true (terminatedAt s cid) with h4 | h4
            · exact h4
            · exact absurd h4 hc
          clear hc
          have h3 := h.2.2 cid (lt_len_of_get_some _ _ _ hrec) hc2
          unfold activeAt at h3
          rw [hrec] at h3
          simp only at h3
          rw [hact] at h3
          exact Bool.noConfusion h3.1
        have hrterm : r.terminated = false := by
          unfold terminatedAt at htermc
          rw [hrec] at htermc
          simpa using htermc
        have hp := invpres_pushEv s (.resume cid) h
        split at hv
        · rename_i name targ args k hout
          have hbrec : (pushEv s (.resume cid)).store[cid]? = some r := hrec
          have hb := invpres_setRec (pushEv s (.resume cid)) cid r
            { r with coro := k } hbrec hrterm hrterm hp.1
          have htermb : terminatedAt (setRec (pushEv s (.resume cid)) cid
              { r with coro := k }) cid = false := by
            rw [terminatedAt_setRec_keep (pushEv s (.resume cid)) cid r
              { r with coro := k } hbrec rfl cid]
            exact htermc
          split at hv
          · rename_i sc aL2 v hdisp
            have hd := invpres_dispatch cid name targ args aL
              (setRec (pushEv s (.resume cid)) cid { r with coro := k }) htermb hb.1
            rw [hdisp] at hd
            have htermsc : terminatedAt sc cid = false := by
              have h5 := dispatch_term_eq cid name targ args aL
                (setRec (pushEv s (.resume cid)) cid { r with coro := k }) cid
              rw [hdisp] at h5
              rw [htermb] at h5
              exact h5
            have hm := invpres_modify_keep sc cid
              (fun c => { c with val := v, exc := Option.none }) (fun c => rfl)
              htermsc hd.1
            have hrc := ih cid aL2 _ f2 s2 ab hm.1 hv
            exact ⟨hrc.1, pres_trans _ _ _ hp.2 (pres_trans _ _ _ hb.2
              (pres_trans _ _ _ hd.2 (pres_trans _ _ _ hm.2 hrc.2)))⟩
          · rename_i sc aL2 e hdisp
            have hd := invpres_dispatch cid name targ args aL
              (setRec (pushEv s (.resume cid)) cid { r with coro := k }) htermb hb.1
            rw [hdisp] at hd
            have htermsc : terminatedAt sc cid = false := by
              have h5 := dispatch_term_eq cid name targ args aL
                (setRec (pushEv s (.resume cid)) cid { r with coro := k }) cid
              rw [hdisp] at h5
              rw [htermb] at h5
              exact h5
            split at hv
            · have hm := invpres_modify_keep sc cid
                (fun c => { c with val := .none, exc := some e }) (fun c => rfl)
                htermsc hd.1
              have hrc := ih cid aL2 _ f2 s2 ab hm.1 hv
              exact ⟨hrc.1, pres_trans _ _ _ hp.2 (pres_trans _ _ _ hb.2
                (pres_trans _ _ _ hd.2 (pres_trans _ _ _ hm.2 hrc.2)))⟩
            · simp only [Option.some.injEq, Prod.mk.injEq] at hv
              obtain ⟨-, h2, -⟩ := hv
              subst h2
              have ht := invpres_terminateRec cid (.error e) sc htermsc hd.1
              exact ⟨ht.1, pres_trans _ _ _ hp.2 (pres_trans _ _ _ hb.2
                (pres_trans _ _ _ hd.2 ht.2))⟩
        · rename_i v hout
          simp only [Option.some.injEq, Prod.mk.injEq] at hv
          obtain ⟨-, h2, -⟩ := hv
          subst h2
          have ht := invpres_terminateRec cid (.ok v) (pushEv s (.resume cid))
            htermc hp.1
          exact ⟨ht.1, pres_trans _ _ _ hp.2 ht.2⟩
        · rename_i e hout
          simp only [Option.some.injEq, Prod.mk.injEq] at hv
          obtain ⟨-, h2, -⟩ := hv
          subst h2
          have ht := invpres_terminateRec cid (.error e) (pushEv s (.resume cid))
            htermc hp.1
          exact ⟨ht.1, pres_trans _ _ _ hp.2 ht.2⟩
      · simp only [Option.some.injEq, Prod.mk.injEq] at hv
        obtain ⟨-, h2, -⟩ := hv
        subst h2
        exact ⟨h, pres_of_inv_refl s h⟩

/-- A sweep over any id snapshot preserves the invariant and freezes every
terminated record. -/
theorem invpres_sweepGo : ∀ (cids : List Nat) (fuel : Nat) (s : RSt)
    (f2 : Nat) (s2 : RSt) (ab : Option Exc),
    Inv s → sweepGo fuel cids s = some (f2, s2, ab) → Inv s2 ∧ pres s s2 := by
  intro cids
  induction cids with
  | nil =>
    intro fuel s f2 s2 ab h hs
    rw [sweepGo] at hs
    simp only [Option.some.injEq, Prod.mk.injEq] at hs
    obtain ⟨-, h2, -⟩ := hs
    subst h2
    exact ⟨h, pres_of_inv_refl s h⟩
  | cons cid rest ih =>
    intro fuel s f2 s2 ab h hs
    rw [sweepGo] at hs
    have hp := invpres_pushEv s (.visit cid) h
    split at hs
    · have h2 := ih fuel _ f2 s2 ab hp.1 hs
      exact ⟨h2.1, pres_trans _ _ _ hp.2 h2.2⟩
    · rename_i r hrec
      split at hs
      · exact Option.noConfusion hs
      · rename_i f3 s3 e hvis
        simp only [Option.some.injEq, Prod.mk.injEq] at hs
        obtain ⟨-, h2, -⟩ := hs
        subst h2
        have hv := invpres_visitRec fuel cid r.active _ f3 s3 (some e) hp.1 hvis
        exact ⟨hv.1, pres_trans _ _ _ hp.2 hv.2⟩
      · rename_i f3 s3 hvis
        have hv := invpres_visitRec fuel cid r.active _ f3 s3 Option.none hp.1 hvis
        have h2 := ih f3 s3 f2 s2 ab hv.1 hs
        exact ⟨h2.1, pres_trans _ _ _ hp.2 (pres_trans _ _ _ hv.2 h2.2)⟩

/-- The whole `while not main_info["terminated"]` loop preserves the
invariant and freezes every terminated record. -/
theorem invpres_rotLoop : ∀ (fuel : Nat) (s : RSt) (res : Except Exc Value)
    (s2 : RSt), Inv s → rotLoop fuel s = some (res, s2) → Inv s2 ∧ pres s s2 := by
  intro fuel
  induction fuel with
  | zero => intro s res s2 h hs; exact Option.noConfusion hs
  | succ fuel ih =>
    intro s res s2 h hs
    rw [rotLoop] at hs
    split at hs
    · exact Option.noConfusion hs
    · rename_i main hmain
      split at hs
      · simp only [Option.some.injEq, Prod.mk.injEq] at hs
        obtain ⟨-, h2⟩ := hs
        subst h2
        exact ⟨h, pres_of_inv_refl s h⟩
      · split at hs
        · exact Option.noConfusion hs
        · rename_i f3 s3 e hsweep
          simp only [Option.some.injEq, Prod.mk.injEq] at hs
          obtain ⟨-, h2⟩ := hs
          subst h2
          have hp := invpres_pushEv s .sweep h
          have hv := invpres_sweepGo s.live.reverse fuel _ f3 s3 (some e) hp.1 hsweep
          exact ⟨hv.1, pres_trans _ _ _ hp.2 hv.2⟩
        · rename_i f3 s3 hsweep
          have hp := invpres_pushEv s .sweep h
          have hv := invpres_sweepGo s.live.reverse fuel _ f3 s3 Option.none hp.1 hsweep
          have h2 := ih s3 res s2 hv.1 hs
          exact ⟨h2.1, pres_trans _ _ _ hp.2 (pres_trans _ _ _ hv.2 h2.2)⟩

/-- Claim C9: for every Rotator record, once its `terminated` flag is true it
is absent from every subsequent registry snapshot, its whole record —
`active` in particular — is frozen (`pres` states the record is bit-for-bit
unchanged and out of the registry, hence `active` stays false and is never
reset to true), and a later termination of another task holding it in
`waiting_coros` never re-activates it (the wake loop's
`if not info["terminated"]` guard; last conjunct).  This holds per sweep
(`sweepOnce`), across the whole loop (`rotLoop`), starting from the initial
state of any run, which satisfies the invariant. -/
theorem C9_idempotent_termination :
    (∀ (fuel : Nat) (s : RSt) (f2 : Nat) (s2 : RSt) (ab : Option Exc),
        Inv s → sweepOnce fuel s = some (f2, s2, ab) → Inv s2 ∧ pres s s2)
    ∧ (∀ (fuel : Nat) (s : RSt) (res : Except Exc Value) (s2 : RSt),
        Inv s → rotLoop fuel s = some (res, s2) → Inv s2 ∧ pres s s2)
    ∧ (∀ (coro : Task), Inv (initSt coro))
    ∧ (∀ (s : RSt) (cid : Nat) (out : Except Exc Value) (j : Nat) (r : Record),
        terminatedAt s cid = false → s.store[j]? = some r → r.terminated = true →
        (terminateRec cid out s).store[j]? = some r) := by
  refine ⟨?_, invpres_rotLoop, ?_, ?_⟩
  · intro fuel s f2 s2 ab h hs
    have hp := invpres_pushEv s .sweep h
    have hv := invpres_sweepGo s.live.reverse fuel _ f2 s2 ab hp.1 hs
    exact ⟨hv.1, pres_trans _ _ _ hp.2 hv.2⟩
  · intro coro
    refine ⟨List.nodup_singleton 0, ?_, ?_⟩
    · intro i hi
      simp only [initSt, List.mem_singleton] at hi
      subst hi
      simp [initSt]
    · intro i hi hterm
      simp only [initSt, List.length_singleton] at hi
      have hi0 : i = 0 := by omega
      subst hi0
      unfold terminatedAt at hterm
      simp [initSt, newRecord] at hterm
  · intro s cid out j r htermc hj hterm
    unfold terminateRec
    split
    · exact hj
    · rename_i rc hrc
      have hjc : j ≠ cid := by
        rintro rfl
        unfold terminatedAt at htermc
        rw [hj] at htermc
        simp only at htermc
        rw [hterm] at htermc
        exact Bool.noConfusion htermc
      show (rc.waiting.foldl wake (setRec s cid (setTerm out rc))).store[j]? = some r
      rw [foldWake_frozen _ _ _ (by
        unfold terminatedAt
        rw [setRec_store_ne _ _ _ _ (Ne.symm hjc), hj]
        simpa using hterm)]
      rw [setRec_store_ne _ _ _ _ (Ne.symm hjc)]
      exact hj

/-- The C9 witness input: one live fresh record and one already-terminated
record off the registry. -/
def c9state : RSt :=
  { store := [newRecord (childId 6), recFailed]
    live := [0]
    trace := [] }

/-- The state after one sweep of `c9state`. -/
def c9wS : RSt :=
  ((sweepOnce 5 c9state).map fun x => x.2.1).getD c9state

/-- Witness for C9: the sweep-level preservation applied to a concrete state
holding a terminated record. -/
theorem C9_idempotent_termination_witness :
    Inv c9state ∧ sweepOnce 5 c9state = some (4, c9wS, Option.none)
    ∧ (Inv c9wS ∧ pres c9state c9wS) :=
  ⟨by unfold Inv; decide, rfl,
    C9_idempotent_termination.1 5 c9state 4 c9wS Option.none (by unfold Inv; decide) rfl⟩

end Icoro
